import Mathlib

set_option maxHeartbeats 1000000
set_option maxRecDepth 8000

/-!
Shallow embedding of webapp/wiktionary.py (the definition-resolution pipeline of
the Wordle word-definition resolver), together with theorems settling the
frozen claims about it.

Conventions of the embedding:
* Python strings are Lean `String`; internally lines are processed as `List Char`
  (one element per code point, matching Python indexing/length semantics).
* Each Python regex is hand-compiled to a decision function on `List Char`.
  Greedy/lazy matching and backtracking are resolved statically where the
  pattern is deterministic; the few places where backtracking matters are
  implemented with explicit search and commented.
* Network and clock effects are abstracted into an `Env` record of oracles;
  every function that performs HTTP requests also returns the number of
  requests issued, so "performs no network calls" is statable.
* A raised Python exception that escapes a function is modelled by `Option`
  (`none` = exception), and a swallowed exception by the oracle returning
  `none` at that call.
-/

/-- Python str whitespace: the characters stripped by str.strip and matched
by the regex class backslash-s for the inputs considered here. -/
def pyIsWs (c : Char) : Bool :=
  c = ' ' || c = '\t' || c = '\n' || c = '\r' || c = '\x0b' || c = '\x0c'

/-- Drop leading whitespace; this is a maximal (greedy) consumption of `\s*`. -/
def dropWs : List Char → List Char
  | [] => []
  | c :: t => if pyIsWs c then dropWs t else c :: t

/-- Python str.strip(): drop leading and trailing whitespace. -/
def pyStrip (l : List Char) : List Char :=
  (dropWs (dropWs l).reverse).reverse

/-- Python str.split with separator a single newline: every newline splits,
empty pieces are kept (so a trailing newline yields a final empty piece). -/
def splitNl : List Char → List (List Char)
  | [] => [[]]
  | c :: rest =>
    if c = '\n' then [] :: splitNl rest
    else
      match splitNl rest with
      | h :: t => (c :: h) :: t
      | [] => [[c]]

/-- Lowercasing of one character: ASCII plus the non-ASCII letters that occur
in the patterns and inputs of this development (Python str.lower restricted
to those; letters outside the table are returned unchanged). -/
def pyLower (c : Char) : Char :=
  if 'A' ≤ c && c ≤ 'Z' then Char.ofNat (c.toNat + 32)
  else if 'А' ≤ c && c ≤ 'Я' then Char.ofNat (c.toNat + 32)
  else match c with
    | 'Á' => 'á' | 'À' => 'à' | 'Â' => 'â' | 'Ã' => 'ã' | 'Ä' => 'ä'
    | 'É' => 'é' | 'È' => 'è' | 'Ê' => 'ê' | 'Í' => 'í' | 'Ó' => 'ó'
    | 'Ò' => 'ò' | 'Ô' => 'ô' | 'Õ' => 'õ' | 'Ö' => 'ö' | 'Ú' => 'ú'
    | 'Ü' => 'ü' | 'Ç' => 'ç' | 'Ñ' => 'ñ' | 'Ž' => 'ž' | 'Š' => 'š'
    | 'Č' => 'č' | 'Ş' => 'ş' | 'Ə' => 'ə' | 'Ő' => 'ő' | 'Û' => 'û'
    | 'Ё' => 'ё' | 'Є' => 'є' | 'І' => 'і' | 'Ї' => 'ї' | 'Э' => 'э'
    | _ => c

/-- Uppercasing of one character (used for title-case candidates and the
UNKNOWN containment check), same coverage policy as `pyLower`. -/
def pyUpper (c : Char) : Char :=
  if 'a' ≤ c && c ≤ 'z' then Char.ofNat (c.toNat - 32)
  else if 'а' ≤ c && c ≤ 'я' then Char.ofNat (c.toNat - 32)
  else match c with
    | 'á' => 'Á' | 'à' => 'À' | 'â' => 'Â' | 'ã' => 'Ã' | 'ä' => 'Ä'
    | 'é' => 'É' | 'è' => 'È' | 'ê' => 'Ê' | 'í' => 'Í' | 'ó' => 'Ó'
    | 'ò' => 'Ò' | 'ô' => 'Ô' | 'õ' => 'Õ' | 'ö' => 'Ö' | 'ú' => 'Ú'
    | 'ü' => 'Ü' | 'ç' => 'Ç' | 'ñ' => 'Ñ' | 'ž' => 'Ž' | 'š' => 'Š'
    | 'č' => 'Č' | 'ş' => 'Ş' | 'ə' => 'Ə' | 'ő' => 'Ő' | 'û' => 'Û'
    | 'ё' => 'Ё' | 'є' => 'Є' | 'і' => 'І' | 'ї' => 'Ї' | 'э' => 'Э'
    | _ => c

/-- Python str.islower of one character, same coverage policy. -/
def pyIsLower (c : Char) : Bool :=
  ('a' ≤ c && c ≤ 'z') || ('а' ≤ c && c ≤ 'я') ||
  ['á','à','â','ã','ä','é','è','ê','í','ó','ò','ô','õ','ö','ú','ü','ç',
   'ñ','ž','š','č','ş','ə','ő','û','ё','є','і','ї','э','ß'].contains c

def lowerL (l : List Char) : List Char := l.map pyLower

def upperL (l : List Char) : List Char := l.map pyUpper

def pyLowerS (s : String) : String := String.mk (lowerL s.data)

/-- Case-insensitive literal match at the start of `l`: consume `pat`,
returning the rest of `l`, or `none` when `pat` is not a prefix. -/
def ciRest : List Char → List Char → Option (List Char)
  | [], l => some l
  | _ :: _, [] => none
  | p :: ps, c :: cs => if pyLower c = pyLower p then ciRest ps cs else none

def ciStarts (pat : List Char) (l : List Char) : Bool := (ciRest pat l).isSome

/-- Case-sensitive literal match at the start, returning the rest. -/
def litRest : List Char → List Char → Option (List Char)
  | [], l => some l
  | _ :: _, [] => none
  | p :: ps, c :: cs => if c = p then litRest ps cs else none

def litStarts (pat : List Char) (l : List Char) : Bool := (litRest pat l).isSome

/-- Regex word character (Unicode \w). ASCII letters, digits and underscore;
non-ASCII characters are treated as letters except for a list of punctuation
and symbol characters occurring in the material of this development. -/
def isWordChar (c : Char) : Bool :=
  ('A' ≤ c && c ≤ 'Z') || ('a' ≤ c && c ≤ 'z') || ('0' ≤ c && c ≤ '9') || c = '_' ||
  (0x80 ≤ c.toNat &&
    !(['·','¦','▸','►','«','»','„','“','”','–','—','…','¿','¡','°','½'].contains c))

/-- Drop a maximal run of regex word characters. -/
def dropWordRun : List Char → List Char
  | [] => []
  | c :: t => if isWordChar c then dropWordRun t else c :: t

/-- Take a maximal run of regex word characters (a greedy \w+ capture). -/
def takeWordRun : List Char → List Char
  | [] => []
  | c :: t => if isWordChar c then c :: takeWordRun t else []

/-- Drop a maximal run of ASCII digits. -/
def dropDigits : List Char → List Char
  | [] => []
  | c :: t => if c.isDigit then dropDigits t else c :: t

/-- Count the leading run of equals signs. -/
def eqRun : List Char → Nat
  | '=' :: t => eqRun t + 1
  | _ => 0

/-- Drop the leading run of equals signs. -/
def dropEqRun : List Char → List Char
  | '=' :: t => dropEqRun t
  | l => l

/-- Word boundary position check after a word character: the regex \b holds
there exactly when the next character is absent or not a word character. -/
def boundaryOk : List Char → Bool
  | [] => true
  | c :: _ => !(isWordChar c)

/-- Require one whitespace character and consume the maximal whitespace run
(the pattern \s+ followed by a non-whitespace continuation). -/
def afterWs1 : List Char → Option (List Char)
  | [] => none
  | c :: r => if pyIsWs c then some (dropWs r) else none

def take300 (l : List Char) : List Char := l.take 300

/-! ### The definition-section header recognizer

Compiled from the `defn_headers` regex of parse_wikt_definition:
`^={2,4}\s*( ...long alternation of part-of-speech names... )` with IGNORECASE.
Alternation entries ending in `\w*\b` (Substantiv, Adjektiv) are equivalent to
plain prefixes, because the greedy `\w*` always ends at a boundary; entries
with a bare `\b` require a word boundary right after the literal. -/

inductive PosB | plain | bound
deriving DecidableEq

/-- Alternation entries of `defn_headers`, in source order. -/
def posItems : List (String × PosB) :=
  [("Noun", PosB.plain), ("Verb", PosB.plain), ("Adjective", PosB.plain), ("Adverb", PosB.plain),
   ("Pronoun", PosB.plain), ("Preposition", PosB.plain), ("Conjunction", PosB.plain),
   ("Interjection", PosB.plain),
   ("Nom commun", PosB.plain), ("Verbe", PosB.plain), ("Adjectif", PosB.plain),
   ("Adverbe", PosB.plain), ("Forme de verbe", PosB.plain), ("Forme de nom commun", PosB.plain),
   ("Sustantivo", PosB.bound), ("Verbo", PosB.plain), ("Adjetivo", PosB.plain),
   ("Adverbio", PosB.plain), ("Forma adjetiva", PosB.plain), ("Forma sustantiva", PosB.plain),
   ("Forma verbal", PosB.plain),
   ("Substantivo", PosB.plain), ("Sostantivo", PosB.plain), ("Aggettivo", PosB.plain),
   ("Substantiv", PosB.plain), ("Adjektiv", PosB.plain), ("Verb", PosB.bound),
   ("Substantiivi", PosB.plain), ("Adjektiivi", PosB.plain), ("Verbi", PosB.plain),
   ("Adverbi", PosB.plain), ("Pronomini", PosB.plain),
   ("Nimisõna", PosB.plain), ("Tegusõna", PosB.plain), ("Omadussõna", PosB.plain),
   ("Daiktavardis", PosB.plain), ("Veiksmažodis", PosB.plain), ("Būdvardis", PosB.plain),
   ("Főnév", PosB.plain), ("Ige", PosB.plain), ("Melléknév", PosB.plain),
   ("Anv-kadarn", PosB.plain),
   ("Vèrb", PosB.plain),
   ("İsim", PosB.plain), ("Ad", PosB.bound), ("Eylem", PosB.plain), ("Sıfat", PosB.plain),
   ("Belirteç", PosB.plain),
   ("Գոյական", PosB.plain), ("Բայ", PosB.plain), ("Ածական", PosB.plain),
   ("Rengdêr", PosB.plain), ("Navdêr", PosB.plain),
   ("Danh từ", PosB.plain), ("Động từ", PosB.plain), ("Tính từ", PosB.plain),
   ("المعاني", PosB.plain),
   ("Съществително", PosB.plain), ("Прилагателно", PosB.plain), ("Глагол", PosB.plain),
   ("Значение", PosB.plain),
   ("Bijvoeglijk naamwoord", PosB.plain), ("Zelfstandig naamwoord", PosB.plain),
   ("Werkwoord", PosB.plain),
   ("Imenica", PosB.plain), ("Glagol", PosB.plain), ("Pridjev", PosB.plain), ("Prilog", PosB.plain),
   ("Именица", PosB.plain), ("Глагол", PosB.bound), ("Придев", PosB.plain), ("Прилог", PosB.plain),
   ("Samostalnik", PosB.plain), ("Pridevnik", PosB.plain),
   ("Ουσιαστικό", PosB.plain), ("Ρήμα", PosB.plain), ("Επίθετο", PosB.plain),
   ("שם עצם", PosB.plain), ("פועל", PosB.plain), ("שם תואר", PosB.plain),
   ("Adjectiv", PosB.plain),
   ("Podstatné jméno", PosB.plain), ("Sloveso", PosB.plain), ("Přídavné jméno", PosB.plain),
   ("Podstatné meno", PosB.plain), ("Prídavné meno", PosB.plain),
   ("არსებითი სახელი", PosB.plain), ("ზმნა", PosB.plain),
   ("Nom", PosB.bound), ("Adjectiu", PosB.plain),
   ("Nomina", PosB.plain), ("Verba", PosB.plain), ("Adjektiva", PosB.plain),
   ("Іменник", PosB.plain), ("Дієслово", PosB.plain), ("Прикметник", PosB.plain)]

def posItemMatch (l : List Char) : String × PosB → Bool
  | (lit, .plain) => ciStarts lit.data l
  | (lit, .bound) =>
    match ciRest lit.data l with
    | some r => boundaryOk r
    | none => false

def posAltMatch (l : List Char) : Bool := posItems.any (posItemMatch l)

/-- The regex `={2,4}` followed by `\s*` and the alternation. Taking fewer
equals signs than the full leading run would leave an equals sign where the
alternation must match, and no alternation entry starts with one, so the
match succeeds exactly when the full run has length 2 to 4. -/
def defnHeadersMatch (line : List Char) : Bool :=
  let n := eqRun line
  2 ≤ n && n ≤ 4 && posAltMatch (dropWs (dropEqRun line))

/-- Tail of the full-line marker regexes: `\s*:?\s*$`. -/
def wsColonEnd (l : List Char) : Bool :=
  match dropWs l with
  | [] => true
  | ':' :: r => (dropWs r).isEmpty
  | _ => false

def markerFullLine (items : List String) (line : List Char) : Bool :=
  items.any fun it =>
    match ciRest it.data line with
    | some r => wsColonEnd r
    | none => false

/-- Compiled from `defn_text_markers`:
`^(Bedeutungen|znaczenia|Значення|Значэнне)\s*:?\s*$` with IGNORECASE. -/
def textMarkersMatch (line : List Char) : Bool :=
  markerFullLine ["Bedeutungen", "znaczenia", "Значення", "Значэнне"] line

/-- Compiled from `end_markers` (full-line plain-text section enders). -/
def endMarkersMatch (line : List Char) : Bool :=
  markerFullLine
    ["Herkunft", "Synonyme", "Antonyme", "Oberbegriffe", "Beispiele",
     "Übersetzungen", "odmiana", "przykłady", "składnia", "kolokacje",
     "synonimy", "antonimy", "wyrazy pokrewne", "związki frazeologiczne"] line

/-- Compiled from `^={2,4}\s*\S`. With backtracking over the counted
repetition, the pattern matches when some choice of 2, 3 or 4 leading equals
signs leaves a non-whitespace character after the whitespace run. -/
def eqHeaderSub (k : Nat) (line : List Char) : Bool :=
  line.take k == List.replicate k '=' && !(dropWs (line.drop k)).isEmpty

def eqHeaderMatch (line : List Char) : Bool :=
  eqHeaderSub 2 line || eqHeaderSub 3 line || eqHeaderSub 4 line

/-- Alternation entries of `skip_line`, in source order (each an IGNORECASE
prefix of the line). -/
def skipLineItems : List String :=
  ["=", "IPA", "Rhymes:", "Homophones:", "wymowa:", "Pronúncia",
   "Prononciation", "Pronunciación", "Aussprache", "Worttrennung",
   "Silbentrennung", "Hörbeispiele", "Reime", "Étymologie", "Etimología",
   "Etimologia", "Etymology", "Herkunft", "Synonym", "Sinónim", "Sinônim",
   "Antonym", "Antónim", "Übersetzung", "Translation", "Tradução",
   "Oberbegriffe", "Beispiele", "Examples", "Uso:", "odmiana:", "przykłady:",
   "składnia:", "kolokacje:", "synonimy:", "antonimy:", "hiperonimy:",
   "hiponimy:", "holonimy:", "meronimy:", "wyrazy pokrewne:",
   "związki frazeologiczne:", "etymologia:", "Cognate ", "From ", "Du ",
   "Del ", "Do ", "Uit ", "Vom ", "Van ", "Derived ", "Compare ",
   "rzeczownik", "przymiotnik", "przysłówek", "czasownik", "Deklinacija",
   "Konjugacija", "Склонение", "Склоненье", "תעתיק", "הגייה"]

def skipLineMatch (line : List Char) : Bool :=
  skipLineItems.any fun it => ciStarts it.data line

/-- Python truthiness-guarded use of the optional word (`if word and ...`):
the check runs only when the word is present and non-empty. -/
def wordTruthy (w : Option (List Char)) (f : List Char → Bool) : Bool :=
  match w with
  | some (c :: t) => f (c :: t)
  | _ => false

/-- The check `line.lower() == word.lower()`. -/
def wordEqB (wl line : List Char) : Bool := lowerL line == lowerL wl

/-- Compiled from `re.match(re.escape(word) + r"\s*\(", line, IGNORECASE)`. -/
def wordParenMatch (wl line : List Char) : Bool :=
  match ciRest wl line with
  | some r =>
    match dropWs r with
    | '(' :: _ => true
    | _ => false
  | none => false

/-- Compiled from `re.match(re.escape(word) + r"\s+[mfnžcMFNŽC]\b", line,
IGNORECASE)`; with IGNORECASE the class is m, f, n, ž, c up to case. -/
def wordGenderMatch (wl line : List Char) : Bool :=
  match ciRest wl line with
  | some (c :: r) =>
    pyIsWs c &&
      (match dropWs r with
       | g :: r2 =>
         (pyLower g = 'm' || pyLower g = 'f' || pyLower g = 'n' ||
          pyLower g = 'ž' || pyLower g = 'c') && boundaryOk r2
       | [] => false)
  | _ => false

/-- Tail search for `^\S+\s*¦`: after at least one non-whitespace character,
either a broken bar follows the whitespace run here, or the \S+ run extends. -/
def pipeScan : List Char → Bool
  | [] => false
  | c :: r =>
    if c = '¦' then true
    else if pyIsWs c then
      match dropWs r with
      | '¦' :: _ => true
      | _ => false
    else pipeScan r

/-- Compiled from `^\S+\s*¦`. -/
def inflMatch : List Char → Bool
  | [] => false
  | c :: r => !(pyIsWs c) && pipeScan r

/-- Scan for the (anchored but dot-star-led) regex `.*Plural\s*:` — a
case-sensitive occurrence of "Plural" followed by optional whitespace and a
colon, anywhere in the line. -/
def pluralColonScan : List Char → Bool
  | [] => false
  | c :: r =>
    (match litRest ("Plural").data (c :: r) with
     | some rest =>
       match dropWs rest with
       | ':' :: _ => true
       | _ => false
     | none => false) ||
    pluralColonScan r

/-- The hyphenation check: `"·" in line or re.match(r".*Plural\s*:", line)`. -/
def hyphMatch (line : List Char) : Bool :=
  line.contains '·' || pluralColonScan line

/-- Character class `[a-záàâãéèêíóòôõúüçñ.·ˈˌ]` under IGNORECASE. -/
def phonClass (c : Char) : Bool :=
  let lc := pyLower c
  ('a' ≤ lc && lc ≤ 'z') ||
  ['á','à','â','ã','é','è','ê','í','ó','ò','ô','õ','ú','ü','ç','ñ',
   '.','·','ˈ','ˌ'].contains lc

def dropPhonRun : List Char → List Char
  | [] => []
  | c :: t => if phonClass c then dropPhonRun t else c :: t

/-- Compiled from `^[a-záàâãéèêíóòôõúüçñ.·ˈˌ]+\s*\\` (IGNORECASE): a maximal
class run (shorter runs leave a class character where `\s*\\` must match, so
only the maximal run can succeed), then optional whitespace, then a
backslash. -/
def phonMatch : List Char → Bool
  | [] => false
  | c :: r =>
    phonClass c &&
      (match dropWs (dropPhonRun (c :: r)) with
       | '\\' :: _ => true
       | _ => false)

/-- The continuation `\s*\(?\s*approfondimento` tested at one backtracking
position of the leading `\w+`. -/
def approTest (l : List Char) : Bool :=
  let l1 := dropWs l
  let l2 := match l1 with
    | '(' :: r => dropWs r
    | _ => l1
  ciStarts ("approfondimento").data l2

def approScan : List Char → Bool
  | [] => false
  | c :: r => approTest (c :: r) || (isWordChar c && approScan r)

/-- Compiled from `^\w+\s*\(?\s*approfondimento` (IGNORECASE), with explicit
backtracking over how much the greedy `\w+` consumes. -/
def approMatch : List Char → Bool
  | [] => false
  | c :: r => isWordChar c && approScan r

/-- Continuation `\s+\w+\s+[vmfno]\b` of the Dutch headword pattern. -/
def dutchTail (r : List Char) : Bool :=
  match r with
  | c :: r1 =>
    pyIsWs c &&
      (match dropWs r1 with
       | d :: _ =>
         isWordChar d &&
           (match dropWordRun (dropWs r1) with
            | e :: r2 =>
              pyIsWs e &&
                (match dropWs r2 with
                 | g :: r3 =>
                   (pyLower g = 'v' || pyLower g = 'm' || pyLower g = 'f' ||
                    pyLower g = 'n' || pyLower g = 'o') && boundaryOk r3
                 | [] => false)
            | [] => false)
       | [] => false)
  | [] => false

/-- Compiled from `^(de|het|een|die|das|der)\s+\w+\s+[vmfno]\b` (IGNORECASE);
every article alternative is tried, as the regex backtracks across the
alternation. -/
def dutchMatch (line : List Char) : Bool :=
  ["de", "het", "een", "die", "das", "der"].any fun a =>
    match ciRest a.data line with
    | some r => dutchTail r
    | none => false

/-- Gender alternation of the Romance headword pattern:
`(masculino|feminino|comum|neutro|féminin|masculin|m\s|f\s|m sing|f sing)`. -/
def romAlt (l : List Char) : Bool :=
  ciStarts ("masculino").data l || ciStarts ("feminino").data l ||
  ciStarts ("comum").data l || ciStarts ("neutro").data l ||
  ciStarts ("féminin").data l || ciStarts ("masculin").data l ||
  (match l with
   | a :: b :: _ => (pyLower a = 'm' || pyLower a = 'f') && pyIsWs b
   | _ => false) ||
  ciStarts ("m sing").data l || ciStarts ("f sing").data l

/-- Continuation `,?\s*` then the gender alternation, at one backtracking
position of the class run. -/
def romTest (r : List Char) : Bool :=
  let r1 := match r with
    | ',' :: t => t
    | _ => r
  romAlt (dropWs r1)

def romScan : List Char → Bool
  | [] => false
  | c :: r => romTest (c :: r) || (phonClass c && romScan r)

/-- Compiled from
`^[a-záàâãéèêíóòôõúüçñ.·ˈˌ]+,?\s*(masculino|...|f sing)` (IGNORECASE), with
explicit backtracking over the class run length. -/
def romClassMatch : List Char → Bool
  | [] => false
  | c :: r => phonClass c && romScan r

/-- Alternation `(plural|third-person|present|past|pl\.)\b` of the English
headword pattern; after "pl." the boundary holds only before a word
character. -/
def craneAlt (l : List Char) : Bool :=
  (match ciRest ("plural").data l with
   | some r => boundaryOk r
   | none => false) ||
  (match ciRest ("third-person").data l with
   | some r => boundaryOk r
   | none => false) ||
  (match ciRest ("present").data l with
   | some r => boundaryOk r
   | none => false) ||
  (match ciRest ("past").data l with
   | some r => boundaryOk r
   | none => false) ||
  (match ciRest ("pl.").data l with
   | some (d :: _) => isWordChar d
   | _ => false)

/-- Compiled from `^\w+\s*\((plural|third-person|present|past|pl\.)\b`
(IGNORECASE): only the maximal `\w+` run can succeed, since a shorter run
leaves a word character where `\s*\(` must match. -/
def craneMatch : List Char → Bool
  | [] => false
  | c :: r =>
    isWordChar c &&
      (match dropWs (dropWordRun (c :: r)) with
       | '(' :: r2 => craneAlt r2
       | _ => false)

/-- Compiled from `^\w+\s+\(\d+` (Finnish-style headword lines). -/
def finMatch : List Char → Bool
  | [] => false
  | c :: r =>
    isWordChar c &&
      (match dropWordRun (c :: r) with
       | e :: r2 =>
         pyIsWs e &&
           (match dropWs r2 with
            | '(' :: d :: _ => d.isDigit
            | _ => false)
       | [] => false)

/-- Compiled from `^\[(\d+)\]\s+(.+)` after the opening bracket. -/
def r18inner (r : List Char) : Option (List Char) :=
  match r with
  | d :: r2 =>
    if d.isDigit then
      match dropDigits (d :: r2) with
      | ']' :: r3 =>
        match afterWs1 r3 with
        | some [] => none
        | some g => some g
        | none => none
      | _ => none
    else none
  | [] => none

/-- Compiled from `^\[(\d+)\]\s+(.+)`: returns the second capture group.
The parser applies this to stripped lines, so the greedy `\s+` never needs
to backtrack (the remainder after it is never all-whitespace unless
empty). -/
def r18extract (line : List Char) : Option (List Char) :=
  match line with
  | c :: r => if c = '[' then r18inner r else none
  | [] => none

def dropDotDigits : List Char → List Char
  | [] => []
  | c :: t => if c.isDigit || c = '.' then dropDotDigits t else c :: t

/-- Compiled from `^\([\d.]+\)\s+(.+)` after the opening parenthesis. -/
def r19inner (r : List Char) : Option (List Char) :=
  match r with
  | d :: r2 =>
    if d.isDigit || d = '.' then
      match dropDotDigits (d :: r2) with
      | ')' :: r3 =>
        match afterWs1 r3 with
        | some [] => none
        | some g => some g
        | none => none
      | _ => none
    else none
  | [] => none

/-- Compiled from `^\([\d.]+\)\s+(.+)`: returns the capture group. -/
def r19extract (line : List Char) : Option (List Char) :=
  match line with
  | c :: r => if c = '(' then r19inner r else none
  | [] => none

/-- Compiled from `^\d+\.?\s+(.*)`: returns the (possibly empty) capture
group. -/
def r20extract (line : List Char) : Option (List Char) :=
  match line with
  | d :: r =>
    if d.isDigit then
      let r1 := dropDigits (d :: r)
      let r2 := match r1 with
        | '.' :: t => t
        | _ => r1
      afterWs1 r2
    else none
  | [] => none

/-- Compiled from `re.match(r"(zdrobn|zgrub|forma)\b", defn, IGNORECASE)`. -/
def zdrobnMatch (l : List Char) : Bool :=
  (match ciRest ("zdrobn").data l with
   | some r => boundaryOk r
   | none => false) ||
  (match ciRest ("zgrub").data l with
   | some r => boundaryOk r
   | none => false) ||
  (match ciRest ("forma").data l with
   | some r => boundaryOk r
   | none => false)

/-! ### The per-line step of the structured pass -/

/-- Outcome of processing one stripped line: either continue with the new
"inside a definition section" state, or return a definition. -/
inductive StepRes where
  | toState (b : Bool)
  | out (d : List Char)
deriving DecidableEq

/-- The trailing part of the in-section line handling: example-sentence
bullets, then the plain-text acceptance of any line longer than 3
characters. -/
def senseTail (line : List Char) : StepRes :=
  match line with
  | '▸' :: _ => .toState true
  | '►' :: _ => .toState true
  | _ => if 3 < line.length then .out (take300 line) else .toState true

/-- The numbered-sense part after the bracketed convention: parenthetical
dotted markers, then the bare leading integer, each falling through exactly
as the source does. -/
def senseRest (line : List Char) : StepRes :=
  match r19extract line with
  | some g =>
    if zdrobnMatch (pyStrip g) then .toState true
    else if 5 < (pyStrip g).length then .out (take300 (pyStrip g))
    else .toState true
  | none =>
    match r20extract line with
    | some g =>
      if 3 < g.length then .out (take300 (pyStrip g)) else senseTail line
    | none => senseTail line

/-- Lines 265-292 of wiktionary.py: the three numbering conventions and the
plain-text acceptance. A bracketed match whose content is 5 characters or
shorter falls through to the later checks, exactly as in the source. -/
def senseStep (line : List Char) : StepRes :=
  match r18extract line with
  | some g => if 5 < g.length then .out (take300 (pyStrip g)) else senseRest line
  | none => senseRest line

/-- The check `re.match(r"^\\\\", line)`: the line starts with a backslash. -/
def headBackslash : List Char → Bool
  | '\\' :: _ => true
  | _ => false

/-- One iteration of the main loop of parse_wikt_definition over a stripped,
non-empty line, given the current in-section state: the cascade of marker,
gate and skip checks, in source order. A result `some b` means the line is
consumed and the in-section state becomes `b`; `none` means control reaches
the numbered-sense handling (`senseStep`). -/
def firstTrue : List (Bool × Bool) → Option Bool
  | [] => none
  | p :: rest => if p.1 then some p.2 else firstTrue rest

/-- The ordered cascade of marker, gate and skip checks of the main loop, in
source order, paired with the in-section state each sets when it fires. -/
def checkList (w : Option (List Char)) (inDef : Bool) (line : List Char) :
    List (Bool × Bool) :=
  [(defnHeadersMatch line, true),
   (textMarkersMatch line, true),
   (endMarkersMatch line, false),
   (eqHeaderMatch line, false),
   (!inDef, false),
   (skipLineMatch line, true),
   (wordTruthy w (fun wl => wordEqB wl line), true),
   (wordTruthy w (fun wl => wordParenMatch wl line), true),
   (wordTruthy w (fun wl => wordGenderMatch wl line), true),
   (inflMatch line, true),
   (hyphMatch line, true),
   (headBackslash line, true),
   (phonMatch line, true),
   (approMatch line, true),
   (dutchMatch line, true),
   (romClassMatch line, true),
   (craneMatch line, true),
   (finMatch line, true)]

/-- The first firing check wins; `none` means control reaches the
numbered-sense handling. -/
def stateCheck (w : Option (List Char)) (inDef : Bool) (line : List Char) : Option Bool :=
  firstTrue (checkList w inDef line)

/-- One iteration of the main loop: the skip cascade, then the
numbered-sense and plain-text handling. -/
def lineStep (w : Option (List Char)) (inDef : Bool) (line : List Char) : StepRes :=
  match stateCheck w inDef line with
  | some b => .toState b
  | none => senseStep line

/-- The structured pass of parse_wikt_definition: a single forward pass over
the lines with the boolean in-section state. -/
def parseLines (w : Option (List Char)) : Bool → List (List Char) → Option (List Char)
  | _, [] => none
  | inDef, raw :: rest =>
    if (pyStrip raw).isEmpty then parseLines w inDef rest
    else
      match lineStep w inDef (pyStrip raw) with
      | .toState b => parseLines w b rest
      | .out d => some d

/-! ### The lax fallback heuristic (_fallback_extract_definition) -/

/-- Compiled from the fallback `skip_sections` regex:
`^={2,4}\s*(Etymology|Pronunciation|Etym|Pronunc|הגייה|מקור|References|See
also|External|Anagrams|Derived|Related|Translations|Übersetzung|Etimología|
Etimologia|Étymologie|Herkunft)` with IGNORECASE. -/
def fbSkipSections (line : List Char) : Bool :=
  let n := eqRun line
  2 ≤ n && n ≤ 4 &&
    (["Etymology", "Pronunciation", "Etym", "Pronunc", "הגייה", "מקור",
      "References", "See also", "External", "Anagrams", "Derived", "Related",
      "Translations", "Übersetzung", "Etimología", "Etimologia", "Étymologie",
      "Herkunft"].any fun it => ciStarts it.data (dropWs (dropEqRun line)))

/-- Compiled from `^={2,4}\s*` (with `\s*` able to match nothing, the pattern
holds exactly when the line starts with two equals signs). -/
def fbHeaderMatch (line : List Char) : Bool :=
  match line with
  | '=' :: '=' :: _ => true
  | _ => false

/-- Compiled from `^(IPA|Rhymes|Homophones|\[|//|\\)` (case-sensitive). -/
def fbSkipLine (line : List Char) : Bool :=
  ["IPA", "Rhymes", "Homophones", "[", "//", "\\"].any fun it =>
    litStarts it.data line

/-- The loop of _fallback_extract_definition with its after-header state. -/
def fallbackLines (w : Option (List Char)) : Bool → List (List Char) → Option (List Char)
  | _, [] => none
  | after, raw :: rest =>
    if (pyStrip raw).isEmpty then fallbackLines w after rest
    else if fbHeaderMatch (pyStrip raw) then fallbackLines w (!fbSkipSections (pyStrip raw)) rest
    else if !after then fallbackLines w after rest
    else if fbSkipLine (pyStrip raw) then fallbackLines w after rest
    else if wordTruthy w (fun wl => wordEqB wl (pyStrip raw)) then fallbackLines w after rest
    else if 5 < (pyStrip raw).length && (pyStrip raw).length < 300 then some (take300 (pyStrip raw))
    else fallbackLines w after rest

/-! ### Headword inference from the first top-level header -/

/-- Tail condition of `^==\s*(.+?)\s*==\s*$` after the lazy group: the
remainder must be whitespace, two equals signs, then whitespace to the end. -/
def r1TailOk (r : List Char) : Bool :=
  match dropWs r with
  | '=' :: '=' :: t => (dropWs t).isEmpty
  | _ => false

/-- Lazy scan of the group `(.+?)`: the group takes the shortest non-empty
prefix whose remainder satisfies `r1TailOk`. -/
def r1Scan (acc : List Char) : List Char → Option (List Char)
  | [] => none
  | c :: rest =>
    if r1TailOk rest then some (c :: acc).reverse
    else r1Scan (c :: acc) rest

def wsRunLen : List Char → Nat
  | [] => 0
  | c :: t => if pyIsWs c then wsRunLen t + 1 else 0

/-- Backtracking over the greedy leading `\s*`: try the maximal whitespace
consumption first, then shorter ones. -/
def r1TryJ : Nat → List Char → Option (List Char)
  | 0, rest => r1Scan [] rest
  | j + 1, rest => r1Scan [] (rest.drop (j + 1)) <|> r1TryJ j rest

/-- Compiled from `re.match(r"^==\s*(.+?)\s*==\s*$", line)`: returns the
group capture. -/
def headerExtract (line : List Char) : Option (List Char) :=
  match line with
  | '=' :: '=' :: rest => r1TryJ (wsRunLen rest) rest
  | _ => none

/-- Headword inference: the first line whose stripped form matches the
top-level header pattern supplies the word (then stripped). -/
def inferWord : List (List Char) → Option (List Char)
  | [] => none
  | raw :: rest =>
    match headerExtract (pyStrip raw) with
    | some g => some (pyStrip g)
    | none => inferWord rest

/-! ### parse_wikt_definition and _fallback_extract_definition -/

/-- The structured pass, then the lax fallback when it finds nothing. -/
def parsePasses (lines : List (List Char)) (w : Option (List Char)) : Option (List Char) :=
  match parseLines w false lines with
  | some d => some d
  | none => fallbackLines w false lines

/-- Core of parse_wikt_definition on character lists: split the extract into
lines, infer the headword from the first top-level header when none is
supplied, then run both passes. -/
def parseWiktCore (extract : List Char) (word : Option (List Char)) : Option (List Char) :=
  parsePasses (splitNl extract)
    (match word with
     | some wl => some wl
     | none => inferWord (splitNl extract))

/-- Embedding of _fallback_extract_definition from webapp/wiktionary.py. -/
def fallback_extract_definition (extract : String) (word : Option String) : Option String :=
  (fallbackLines (word.map String.data) false (splitNl extract.data)).map String.mk

/-- Embedding of parse_wikt_definition from webapp/wiktionary.py: extract a
definition line from a Wiktionary plaintext extract, or nothing. -/
def parse_wikt_definition (extract : String) (word : Option String) : Option String :=
  (parseWiktCore extract.data (word.map String.data)).map String.mk

/-! ### Candidate generation -/

/-- Embedding of WIKT_LANG_MAP. -/
def WIKT_LANG_MAP : List (String × String) :=
  [("nb", "no"), ("nn", "no"), ("hyw", "hy"), ("ckb", "ku")]

/-- Embedding of LEMMA_SUFFIXES. -/
def LEMMA_SUFFIXES : List (String × List String) :=
  [("tr", ["mek", "mak"]), ("az", ["mək", "maq"])]

/-- Embedding of LEMMA_STRIP_RULES. -/
def LEMMA_STRIP_RULES : List (String × List (String × String)) :=
  [("es", [("es", ""), ("as", "a"), ("os", "o"), ("s", "")]),
   ("pt", [("ões", "ão"), ("es", ""), ("as", "a"), ("os", "o"), ("s", "")]),
   ("fr", [("eaux", "eau"), ("aux", "al"), ("es", "e"), ("s", "")]),
   ("it", [("chi", "co"), ("ghi", "go"), ("ni", "ne"), ("li", "le"),
           ("hi", "o"), ("i", "o"), ("e", "a")]),
   ("ca", [("ns", "n"), ("es", ""), ("s", "")]),
   ("ro", [("uri", ""), ("i", ""), ("e", "")]),
   ("de", [("ern", ""), ("en", ""), ("er", ""), ("e", "")]),
   ("nl", [("en", ""), ("er", ""), ("s", "")]),
   ("sv", [("arna", ""), ("orna", ""), ("erna", ""), ("ar", ""), ("er", ""),
           ("or", ""), ("en", ""), ("et", ""), ("na", "")]),
   ("nb", [("ene", ""), ("er", ""), ("et", "")]),
   ("nn", [("ane", ""), ("ar", ""), ("et", "")]),
   ("hr", [("ovima", ""), ("evima", ""), ("ovi", ""), ("evi", ""), ("a", ""),
           ("i", ""), ("e", "")]),
   ("sr", [("ови", ""), ("еви", ""), ("а", ""), ("и", ""), ("е", "")]),
   ("bg", [("етата", "е"), ("ите", ""), ("ата", ""), ("ът", ""), ("та", ""),
           ("а", ""), ("и", "")]),
   ("ru", [("ов", ""), ("ей", ""), ("а", ""), ("ы", ""), ("и", "")]),
   ("uk", [("ів", ""), ("ей", ""), ("а", ""), ("и", ""), ("і", "")]),
   ("cs", [("ů", ""), ("ech", ""), ("y", ""), ("e", ""), ("i", "")]),
   ("sk", [("ov", ""), ("ách", ""), ("y", ""), ("e", ""), ("i", "")]),
   ("sl", [("ov", ""), ("ev", ""), ("i", ""), ("e", ""), ("a", "")]),
   ("fi", [("ssa", ""), ("ssä", ""), ("sta", ""), ("stä", ""), ("lla", ""),
           ("llä", ""), ("lta", ""), ("ltä", ""), ("n", ""), ("t", "")]),
   ("et", [("de", ""), ("te", ""), ("d", "")]),
   ("hu", [("ban", ""), ("ben", ""), ("nak", ""), ("nek", ""), ("k", ""), ("t", "")])]

/-- Embedding of _build_candidates. Indexing `word[0]` raises IndexError on
the empty string, which the embedding reports as `none`; every other input
yields the candidate list. -/
def build_candidates (word lang : String) : Option (List String) :=
  match word.data with
  | [] => none
  | c :: rest =>
    some ((((LEMMA_STRIP_RULES.lookup lang).getD []).foldl
      (fun acc rule =>
        if rule.1.data.isSuffixOf (lowerL word.data) && rule.1.length < word.length then
          if 2 ≤ (String.mk (word.data.take (word.length - rule.1.length) ++ rule.2.data)).length &&
              !(acc.contains (String.mk (word.data.take (word.length - rule.1.length) ++ rule.2.data))) then
            acc ++ [String.mk (word.data.take (word.length - rule.1.length) ++ rule.2.data)]
          else acc
        else acc)
      ((if pyIsLower c then [word, String.mk (pyUpper c :: rest)] else [word]) ++
        (((LEMMA_SUFFIXES.lookup lang).getD []).map fun suf => word ++ suf))))

/-! ### Data model and environment -/

/-- One entry of the English Wiktionary REST response: a part of speech and
its raw (HTML-bearing) definition strings. -/
structure EnEntry where
  partOfSpeech : Option String
  definitions : List String
deriving DecidableEq

/-- The result record produced by the resolution pipeline. The JSON written
by the native and ai tiers has no part_of_speech key; an absent key and a
null value are modelled alike as `none`. -/
structure DefResult where
  definition : String
  part_of_speech : Option String
  source : String
  url : Option String
deriving DecidableEq

/-- A cache entry: a positive result, or a negative marker with its
timestamp. -/
inductive CacheEntry where
  | pos (r : DefResult)
  | neg (ts : Nat)
deriving DecidableEq

/-- The on-disk cache, keyed by language code and lowercased word; `none`
means no readable file. -/
def Cache : Type := String → String → Option CacheEntry

/-- The external world: the native-Wiktionary extract endpoint (by subdomain
and title), the English REST endpoint (by queried title), the chat
completion endpoint (by prompt), the credential, and the clock. An oracle
returning `none` models a missing page, a transport error or a malformed
response — all swallowed identically by the source. -/
structure Env where
  nativeExtract : String → String → Option String
  enApi : String → Option (List (String × List EnEntry))
  llmResp : String → Option String
  apiKey : Option String
  now : Nat

/-- Percent-encoding of a URL path component, abstracted as the identity; it
is injective on the words considered and no claim depends on the encoded
form. -/
def urlquote (s : String) : String := s

/-! ### strip_html and the English-source lookup -/

/-- Split at the first greater-than sign, returning the part before and the
part after it. -/
def splitGt : List Char → Option (List Char × List Char)
  | [] => none
  | c :: rest =>
    if c = '>' then some ([], rest)
    else (splitGt rest).map fun p => (c :: p.1, p.2)

theorem splitGt_shrink : ∀ l a b, splitGt l = some (a, b) → b.length < l.length := by
  intro l
  induction l with
  | nil => intro a b h; simp [splitGt] at h
  | cons c rest ih =>
    intro a b h
    rw [splitGt] at h
    by_cases hc : c = '>'
    · rw [if_pos hc] at h
      injection h with h2
      injection h2 with h3 h4
      rw [← h4]
      simp
    · rw [if_neg hc, Option.map_eq_some'] at h
      obtain ⟨⟨a2, b2⟩, hs, hp⟩ := h
      have hlt := ih a2 b2 hs
      injection hp with h3 h4
      rw [← h4]
      simp
      omega

/-- Removal of all matches of `<[^>]+>` (re.sub with the empty replacement):
at a less-than sign, if a greater-than sign follows with at least one
character in between, the span through it is deleted; otherwise the
character is kept and the scan continues. The fuel argument makes the
recursion structural; every step consumes at least one character of the
input (`splitGt_shrink`), so fuel equal to the length never runs out. -/
def stripTagsF : Nat → List Char → List Char
  | 0, l => l
  | fuel + 1, l =>
    match l with
    | [] => []
    | '<' :: rest =>
      match splitGt rest with
      | some ([], _) => '<' :: stripTagsF fuel rest
      | some (_ :: _, after) => stripTagsF fuel after
      | none => '<' :: stripTagsF fuel rest
    | c :: rest => c :: stripTagsF fuel rest

def stripTags (l : List Char) : List Char := stripTagsF l.length l

/-- Embedding of strip_html. -/
def strip_html (s : String) : String := String.mk (pyStrip (stripTags s.data))

def enLookup (data : List (String × List EnEntry)) (k : String) : List EnEntry :=
  (data.lookup k).getD []

def firstCleanDefs : List String → Option (List Char)
  | [] => none
  | raw :: rest =>
    let c := pyStrip (stripTags raw.data)
    if c.isEmpty then firstCleanDefs rest else some c

def firstCleanEntries : List EnEntry → Option (List Char)
  | [] => none
  | e :: rest => firstCleanDefs e.definitions <|> firstCleanEntries rest

/-- Embedding of fetch_english_definition: query the English REST endpoint
by the lowercased word, take the first non-empty tag-stripped definition
under the query language then under "en", truncate it to 200 characters.
The second component counts HTTP requests (always one). -/
def fetch_english_definition (env : Env) (word lang : String) : Option String × Nat :=
  match env.enApi (pyLowerS word) with
  | none => (none, 1)
  | some data =>
    match firstCleanEntries (enLookup data lang) <|> firstCleanEntries (enLookup data "en") with
    | some c => (some (String.mk (c.take 200)), 1)
    | none => (none, 1)

/-! ### The form-of resolver -/

/-- Try a list of alternation literals (case-insensitively) in order,
returning the rest after the first that matches; the literals used are
pairwise prefix-incompatible, so at most one can match. -/
def tryItems : List String → List Char → Option (List Char)
  | [], _ => none
  | it :: rest, l => ciRest it.data l <|> tryItems rest l

/-- The sub-pattern `(?:first|second|third)[- ]person`: ordinal literal, a
hyphen or a space, then the literal person. -/
def personRest (l : List Char) : Option (List Char) :=
  match tryItems ["first", "second", "third"] l with
  | some (c :: r) =>
    if c = '-' || c = ' ' then ciRest ("person").data r else none
  | _ => none

/-- One iteration of the qualifier star of _FORM_OF_RE: a qualifier literal
followed by `\s+` (consumed maximally; every continuation starts with a
non-whitespace character, so no whitespace backtracking is needed). -/
def foQualStep (l : List Char) : Option (List Char) :=
  match tryItems
      ["feminine", "masculine", "neuter", "singular", "plural", "diminutive",
       "augmentative", "alternative", "comparative", "superlative", "past",
       "present", "gerund"] l <|>
    personRest l <|>
    tryItems
      ["imperative", "infinitive", "nominative", "genitive", "dative",
       "accusative", "ablative", "instrumental"] l with
  | some r => afterWs1 r
  | none => none

/-- Tail of _FORM_OF_RE after the optional noun:
`\s*(?:of|de|di|du|von|van)\s+(\w+)`, returning the capture. -/
def foConjCapture (l : List Char) : Option (List Char) :=
  match tryItems ["of", "de", "di", "du", "von", "van"] (dropWs l) with
  | some r =>
    match afterWs1 r with
    | some r2 =>
      match takeWordRun r2 with
      | [] => none
      | g => some g
    | none => none
  | none => none

/-- The part after the qualifier star:
`(?:form|plural|tense|participle|conjugation)?` (greedy, so the with-noun
reading is preferred and the without-noun reading is the backtracking
fallback) followed by `foConjCapture`. -/
def foAfterStar (l : List Char) : Option (List Char) :=
  (match tryItems ["form", "plural", "tense", "participle", "conjugation"] l with
   | some r => foConjCapture r
   | none => none) <|>
  foConjCapture l

/-- The greedy qualifier star with backtracking: prefer consuming another
qualifier, fall back to stopping here. The fuel is the remaining length;
every iteration consumes at least five characters, so the fuel is never
exhausted before the string is. -/
def foStar : Nat → List Char → Option (List Char)
  | 0, l => foAfterStar l
  | fuel + 1, l =>
    match foQualStep l with
    | some l2 => foStar fuel l2 <|> foAfterStar l
    | none => foAfterStar l

/-- Compiled from _FORM_OF_RE: returns the captured base word. -/
def formOfBase (defn : List Char) : Option (List Char) := foStar defn.length defn

/-- Embedding of _follow_form_of: when the definition matches _FORM_OF_RE,
look the base word up through the English source and hand its answer back
(the source returns the fetched value whether or not it is truthy). -/
def follow_form_of (env : Env) (defn : String) (lang : String) : Option String × Nat :=
  match formOfBase defn.data with
  | some base => fetch_english_definition env (String.mk base) lang
  | none => (none, 0)

/-! ### The inline form-of gate of the English tier -/

/-- Tail `of\s+` of the gate regex. -/
def gateOf (l : List Char) : Bool :=
  match ciRest ("of").data l with
  | some (c :: _) => pyIsWs c
  | _ => false

/-- Continuation `\s+(?:form\s+)?of\s+` of the gate regex; the optional
group is greedy, and the no-group reading is the fallback. -/
def gateCont (r : List Char) : Bool :=
  match afterWs1 r with
  | some l1 =>
    (match ciRest ("form").data l1 with
     | some r2 =>
       match afterWs1 r2 with
       | some l2 => gateOf l2
       | none => false
     | none => false) ||
    gateOf l1
  | none => false

/-- The `(?:\w+ )?(?:form|tense|participle)` alternative of the gate: an
optional greedy word run followed by one literal space, then the noun. -/
def gateWordForm (l : List Char) : Bool :=
  (match takeWordRun l with
   | [] => false
   | run =>
     match l.drop run.length with
     | ' ' :: r2 =>
       match tryItems ["form", "tense", "participle"] r2 with
       | some r3 => gateCont r3
       | none => false
     | _ => false) ||
  (match tryItems ["form", "tense", "participle"] l with
   | some r => gateCont r
   | none => false)

/-- Compiled from the inline gate regex of fetch_definition_cached (lines
623-633): `^(synonym|plural|...|(?:\w+ )?(?:form|tense|participle))\s+
(?:form\s+)?of\s+` with IGNORECASE, with backtracking across the
alternation. -/
def gateMatch (l : List Char) : Bool :=
  (["synonym", "plural", "feminine", "masculine", "diminutive", "augmentative",
    "alternative", "archaic", "obsolete", "dated", "rare", "singular"].any
      fun q => match ciRest q.data l with
        | some r => gateCont r
        | none => false) ||
  (match personRest l with
   | some r => gateCont r
   | none => false) ||
  (["past", "present", "comparative", "superlative", "nominative", "genitive",
    "dative", "accusative", "instrumental", "imperative", "infinitive"].any
      fun q => match ciRest q.data l with
        | some r => gateCont r
        | none => false) ||
  gateWordForm l

/-! ### The generative fallback -/

/-- Embedding of LLM_LANG_NAMES (the generative allow-list). -/
def LLM_LANG_NAMES : List (String × String) :=
  [("en", "English"), ("fi", "Finnish"), ("de", "German"), ("fr", "French"),
   ("es", "Spanish"), ("it", "Italian"), ("pt", "Portuguese"), ("nl", "Dutch"),
   ("sv", "Swedish"), ("nb", "Norwegian Bokmål"), ("nn", "Norwegian Nynorsk"),
   ("da", "Danish"), ("pl", "Polish"), ("ru", "Russian"), ("uk", "Ukrainian"),
   ("bg", "Bulgarian"), ("hr", "Croatian"), ("sr", "Serbian"),
   ("sl", "Slovenian"), ("cs", "Czech"), ("sk", "Slovak"), ("ro", "Romanian"),
   ("hu", "Hungarian"), ("tr", "Turkish"), ("az", "Azerbaijani"),
   ("et", "Estonian"), ("lt", "Lithuanian"), ("lv", "Latvian"),
   ("el", "Greek"), ("ka", "Georgian"), ("hy", "Armenian"), ("he", "Hebrew"),
   ("ar", "Arabic"), ("fa", "Persian"), ("vi", "Vietnamese"),
   ("id", "Indonesian"), ("ms", "Malay"), ("ca", "Catalan"),
   ("gl", "Galician"), ("eu", "Basque"), ("br", "Breton"), ("oc", "Occitan"),
   ("la", "Latin"), ("ko", "Korean"), ("sq", "Albanian"),
   ("mk", "Macedonian"), ("is", "Icelandic"), ("ga", "Irish"),
   ("cy", "Welsh"), ("mt", "Maltese"), ("hyw", "Western Armenian"),
   ("ckb", "Central Kurdish")]

/-- The single-turn prompt sent to the completion endpoint. -/
def llmPrompt (lang_name word : String) : String :=
  "Define the " ++ lang_name ++ " word \x27" ++ word ++
  "\x27 in one short sentence in English. " ++
  "If it has a clear part of speech, prefix with it (e.g. \x27noun: ...\x27). " ++
  "If you\x27re not confident about this word, respond with just \x27UNKNOWN\x27."

/-- Substring containment (Python `in` on strings). -/
def containsSub (pat : List Char) : List Char → Bool
  | [] => pat.isEmpty
  | c :: r => litStarts pat (c :: r) || containsSub pat r

/-- Post-processing of the completion response: a response containing
UNKNOWN (case-insensitively) or shorter than 3 characters is no result;
otherwise the text truncated to 300 characters becomes an ai-sourced result
with a null URL. -/
def llmPostProcess (resp : Option String) : Option DefResult × Nat :=
  match resp with
  | none => (none, 1)
  | some content =>
    if containsSub ("UNKNOWN").data (upperL (pyStrip content.data)) ||
        (pyStrip content.data).length < 3 then
      (none, 1)
    else
      (some { definition := String.mk (take300 (pyStrip content.data)),
              part_of_speech := none, source := "ai", url := none }, 1)

/-- Embedding of fetch_llm_definition: gated on the credential and the
allow-list, then a single completion request. The count is 1 exactly when
the HTTP request is issued. -/
def fetch_llm_definition (env : Env) (word lang : String) : Option DefResult × Nat :=
  match env.apiKey with
  | none => (none, 0)
  | some _ =>
    match LLM_LANG_NAMES.lookup lang with
    | none => (none, 0)
    | some lang_name => llmPostProcess (env.llmResp (llmPrompt lang_name word))

/-! ### The native tier -/

def wiktLangOf (lang : String) : String := (WIKT_LANG_MAP.lookup lang).getD lang

/-- The candidate loop of fetch_native_wiktionary: one request per candidate
until a parse succeeds; a missing page, transport error or empty extract
advances to the next candidate. -/
def nativeTry (env : Env) (wl : String) : List String → Option DefResult × Nat
  | [] => (none, 0)
  | tw :: rest =>
    match env.nativeExtract wl tw with
    | some rawExtract =>
      let ex := pyStrip rawExtract.data
      if ex.isEmpty then
        let p := nativeTry env wl rest
        (p.1, p.2 + 1)
      else
        match parseWiktCore ex (some tw.data) with
        | some d =>
          (some { definition := String.mk d, part_of_speech := none,
                  source := "native",
                  url := some ("https://" ++ wl ++ ".wiktionary.org/wiki/" ++ urlquote tw) }, 1)
        | none =>
          let p := nativeTry env wl rest
          (p.1, p.2 + 1)
    | none =>
      let p := nativeTry env wl rest
      (p.1, p.2 + 1)

/-- Embedding of fetch_native_wiktionary; `none` models the IndexError that
_build_candidates raises on an empty word. -/
def fetch_native_wiktionary (env : Env) (word lang : String) :
    Option (Option DefResult × Nat) :=
  (build_candidates word lang).map (nativeTry env (wiktLangOf lang))

/-! ### The inline English tier of fetch_definition_cached -/

def enUrl (tw : String) : String := "https://en.wiktionary.org/wiki/" ++ urlquote tw

/-- The innermost loop over the definitions of one entry: skip empty
tag-stripped definitions; on a gate match follow the form-of reference,
accepting its answer or skipping the definition; otherwise accept the
definition immediately. The count tallies the follow-up requests. -/
def enScanDefs (env : Env) (lang : String) (pos : Option String) (tw : String) :
    List String → Option DefResult × Nat
  | [] => (none, 0)
  | raw :: rest =>
    let clean := pyStrip (stripTags raw.data)
    if clean.isEmpty then enScanDefs env lang pos tw rest
    else if gateMatch clean then
      match follow_form_of env (String.mk clean) lang with
      | (some f, n) =>
        (some { definition := String.mk (take300 f.data), part_of_speech := pos,
                source := "english", url := some (enUrl tw) }, n)
      | (none, n) =>
        let p := enScanDefs env lang pos tw rest
        (p.1, n + p.2)
    else
      (some { definition := String.mk (take300 clean), part_of_speech := pos,
              source := "english", url := some (enUrl tw) }, 0)

def enScanEntries (env : Env) (lang : String) (tw : String) :
    List EnEntry → Option DefResult × Nat
  | [] => (none, 0)
  | e :: rest =>
    match enScanDefs env lang e.partOfSpeech tw e.definitions with
    | (some r, n) => (some r, n)
    | (none, n) =>
      let p := enScanEntries env lang tw rest
      (p.1, n + p.2)

/-- The loop `for try_lang in [lang_code, "en"]`. -/
def enScanLangs (env : Env) (lang tw : String)
    (data : List (String × List EnEntry)) : Option DefResult × Nat :=
  match enScanEntries env lang tw (enLookup data lang) with
  | (some r, n) => (some r, n)
  | (none, n) =>
    let p := enScanEntries env lang tw (enLookup data "en")
    (p.1, n + p.2)

/-- The candidate loop of the inline English tier: one REST request per
candidate (errors included) until a result is found. -/
def enCandidatesScan (env : Env) (lang : String) : List String → Option DefResult × Nat
  | [] => (none, 0)
  | tw :: rest =>
    match env.enApi tw with
    | none =>
      let p := enCandidatesScan env lang rest
      (p.1, p.2 + 1)
    | some data =>
      match enScanLangs env lang tw data with
      | (some r, n) => (some r, n + 1)
      | (none, n) =>
        let p := enCandidatesScan env lang rest
        (p.1, n + 1 + p.2)

/-! ### The orchestrator -/

/-- Negative cache entries expire after 7 days (in seconds). -/
def NEGATIVE_CACHE_TTL : Nat := 7 * 24 * 3600

/-- The three source tiers in order, without any cache interaction; `none`
models the IndexError on an empty word. The count is the total number of
HTTP requests issued. -/
def resolveCore (env : Env) (word lang : String) : Option (Option DefResult × Nat) :=
  match fetch_native_wiktionary env word lang with
  | none => none
  | some (some r, n1) => some (some r, n1)
  | some (none, n1) =>
    match build_candidates (pyLowerS word) lang with
    | none => none
    | some encs =>
      match enCandidatesScan env lang encs with
      | (some r, n2) => some (some r, n1 + n2)
      | (none, n2) =>
        let p := fetch_llm_definition env word lang
        some (p.1, n1 + n2 + p.2)

/-- Overwrite one cache key. -/
def cacheWrite (c : Cache) (l w : String) (e : CacheEntry) : Cache :=
  fun l2 w2 => if l2 = l ∧ w2 = w then some e else c l2 w2

/-- Resolve through the tiers, then persist the outcome (a positive result,
or a negative marker stamped with the current time) under the key. -/
def resolveAndWrite (env : Env) (cache : Cache) (word lang : String) :
    Option (Option DefResult × Cache × Nat) :=
  (resolveCore env word lang).map fun p =>
    (p.1,
     cacheWrite cache lang (pyLowerS word)
       (match p.1 with
        | some r => CacheEntry.pos r
        | none => CacheEntry.neg env.now),
     p.2)

/-- Embedding of fetch_definition_cached. The cache directory argument is
modelled by `useCache`; the triple is the returned result, the cache state
after the call, and the number of HTTP requests issued; `none` models an
uncaught exception (the IndexError on an empty word). -/
def fetch_definition_cached (env : Env) (cache : Cache) (word lang : String)
    (useCache : Bool) : Option (Option DefResult × Cache × Nat) :=
  if useCache then
    match cache lang (pyLowerS word) with
    | some (CacheEntry.pos r) => some (some r, cache, 0)
    | some (CacheEntry.neg ts) =>
      if env.now - ts < NEGATIVE_CACHE_TTL then some (none, cache, 0)
      else resolveAndWrite env cache word lang
    | none => resolveAndWrite env cache word lang
  else
    (resolveCore env word lang).map fun p => (p.1, cache, p.2)

/-! ### Supporting lemmas -/

theorem dropWs_head_not_ws : ∀ l c t, dropWs l = c :: t → pyIsWs c = false := by
  intro l
  induction l with
  | nil => intro c t h; exact absurd h (by simp [dropWs])
  | cons a r ih =>
    intro c t h
    rw [dropWs] at h
    cases ha : pyIsWs a with
    | true => rw [ha] at h; simp at h; exact ih c t h
    | false => rw [ha] at h; simp at h; rw [← h.1]; exact ha

theorem dropWs_nil_all_ws : ∀ l, dropWs l = [] → ∀ x ∈ l, pyIsWs x = true := by
  intro l
  induction l with
  | nil => intro _ x hx; simp at hx
  | cons a r ih =>
    intro h x hx
    rw [dropWs] at h
    cases ha : pyIsWs a with
    | true =>
      rw [ha] at h; simp at h
      rcases List.mem_cons.mp hx with rfl | hx2
      · exact ha
      · exact ih h x hx2
    | false => rw [ha] at h; simp at h

theorem dropWs_ne_nil_of_mem (l : List Char) (c : Char) (hc : c ∈ l)
    (hw : pyIsWs c = false) : dropWs l ≠ [] := by
  intro h
  have := dropWs_nil_all_ws l h c hc
  rw [hw] at this
  exact Bool.noConfusion this

theorem pyStrip_ne_nil (c : Char) (t : List Char) (hw : pyIsWs c = false) :
    pyStrip (c :: t) ≠ [] := by
  unfold pyStrip
  have h1 : dropWs (c :: t) = c :: t := by rw [dropWs, hw]; simp
  rw [h1]
  intro h
  have h2 : dropWs (c :: t).reverse = [] := by
    cases hd : dropWs (c :: t).reverse with
    | nil => rfl
    | cons x xs => rw [hd] at h; simp at h
  exact dropWs_ne_nil_of_mem (c :: t).reverse c (by simp) hw h2

theorem afterWs1_eq_dropWs : ∀ l g, afterWs1 l = some g → ∃ r, g = dropWs r := by
  intro l g h
  cases l with
  | nil => simp [afterWs1] at h
  | cons c r =>
    rw [afterWs1] at h
    cases hc : pyIsWs c with
    | true => rw [hc] at h; simp at h; exact ⟨r, h.symm⟩
    | false => rw [hc] at h; simp at h

theorem strip_dropWs_ne_nil (r : List Char) (hne : dropWs r ≠ []) :
    pyStrip (dropWs r) ≠ [] := by
  cases hd : dropWs r with
  | nil => exact absurd hd hne
  | cons c t =>
    have hw := dropWs_head_not_ws r c t hd
    exact pyStrip_ne_nil c t hw

theorem strip_afterWs1_ne_nil : ∀ l g, afterWs1 l = some g → g ≠ [] → pyStrip g ≠ [] := by
  intro l g h hne
  obtain ⟨r, rfl⟩ := afterWs1_eq_dropWs l g h
  exact strip_dropWs_ne_nil r hne

theorem take300_ne_nil (l : List Char) (h : l ≠ []) : take300 l ≠ [] := by
  cases l with
  | nil => exact absurd rfl h
  | cons c t => simp [take300]

theorem r18inner_ne (r g) (h : r18inner r = some g) : pyStrip g ≠ [] := by
  unfold r18inner at h
  split at h
  next d r2 =>
    split at h
    · split at h
      next r3 heq =>
        cases ha : afterWs1 r3 with
        | none => rw [ha] at h; simp at h
        | some g2 =>
          rw [ha] at h
          cases g2 with
          | nil => simp at h
          | cons x xs =>
            simp at h
            rw [← h]
            exact strip_afterWs1_ne_nil r3 (x :: xs) ha (by simp)
      next hne => simp at h
    · simp at h
  next => simp at h

theorem r18extract_ne (l g) (h : r18extract l = some g) : pyStrip g ≠ [] := by
  unfold r18extract at h
  split at h
  next c r =>
    split at h
    · exact r18inner_ne r g h
    · simp at h
  next => simp at h

theorem r19inner_shape (r g) (h : r19inner r = some g) :
    ∃ l2, afterWs1 l2 = some g ∧ g ≠ [] := by
  unfold r19inner at h
  split at h
  next d r2 =>
    split at h
    · split at h
      next r3 heq =>
        cases ha : afterWs1 r3 with
        | none => rw [ha] at h; simp at h
        | some g2 =>
          rw [ha] at h
          cases g2 with
          | nil => simp at h
          | cons x xs =>
            simp at h
            rw [← h]
            exact ⟨r3, ha, by simp⟩
      next hne => simp at h
    · simp at h
  next => simp at h

theorem r20extract_ne (l g) (h : r20extract l = some g) (hg : g ≠ []) :
    pyStrip g ≠ [] := by
  unfold r20extract at h
  split at h
  next d r =>
    split at h
    · exact strip_afterWs1_ne_nil _ g h hg
    · simp at h
  next => simp at h

theorem senseTail_ne (l d : List Char) (h : senseTail l = StepRes.out d) : d ≠ [] := by
  unfold senseTail at h
  split at h
  · injection h
  · injection h
  · split at h
    next hlen =>
      injection h with h1
      rw [← h1]
      apply take300_ne_nil
      intro hnil
      rw [hnil] at hlen
      simp at hlen
    next => injection h

theorem senseRest_ne (l d : List Char) (h : senseRest l = StepRes.out d) : d ≠ [] := by
  unfold senseRest at h
  split at h
  next g heq =>
    split at h
    · injection h
    · split at h
      next hlen =>
        injection h with h1
        rw [← h1]
        apply take300_ne_nil
        intro hnil
        rw [hnil] at hlen
        simp at hlen
      next => injection h
  next heq =>
    split at h
    next g heq2 =>
      split at h
      next hlen =>
        injection h with h1
        rw [← h1]
        apply take300_ne_nil
        apply r20extract_ne l g heq2
        intro hnil
        rw [hnil] at hlen
        simp at hlen
      next => exact senseTail_ne l d h
    next => exact senseTail_ne l d h

theorem senseStep_ne (l d : List Char) (h : senseStep l = StepRes.out d) : d ≠ [] := by
  unfold senseStep at h
  split at h
  next g heq =>
    split at h
    next hlen =>
      injection h with h1
      rw [← h1]
      exact take300_ne_nil _ (r18extract_ne l g heq)
    next => exact senseRest_ne l d h
  next => exact senseRest_ne l d h

theorem lineStep_out (w : Option (List Char)) (inDef : Bool) (line d : List Char)
    (h : lineStep w inDef line = StepRes.out d) :
    senseStep line = StepRes.out d := by
  unfold lineStep at h
  split at h
  next => injection h
  next => exact h

theorem parseLines_ne : ∀ ls w b d, parseLines w b ls = some d → d ≠ [] := by
  intro ls
  induction ls with
  | nil => intro w b d h; simp [parseLines] at h
  | cons raw rest ih =>
    intro w b d h
    rw [parseLines] at h
    by_cases he : (pyStrip raw).isEmpty
    · rw [if_pos he] at h; exact ih w b d h
    · rw [if_neg he] at h
      cases hs : lineStep w b (pyStrip raw) with
      | toState b2 => rw [hs] at h; exact ih w b2 d h
      | out d2 =>
        rw [hs] at h
        injection h with h1
        rw [← h1]
        exact senseStep_ne _ _ (lineStep_out _ _ _ _ hs)

theorem fallbackLines_ne : ∀ ls w b d, fallbackLines w b ls = some d → d ≠ [] := by
  intro ls
  induction ls with
  | nil => intro w b d h; simp [fallbackLines] at h
  | cons raw rest ih =>
    intro w b d h
    rw [fallbackLines] at h
    by_cases he : (pyStrip raw).isEmpty
    · rw [if_pos he] at h; exact ih w b d h
    · rw [if_neg he] at h
      by_cases h1 : fbHeaderMatch (pyStrip raw)
      · rw [if_pos h1] at h; exact ih w _ d h
      · rw [if_neg h1] at h
        by_cases h2 : (!b : Bool)
        · rw [if_pos h2] at h; exact ih w b d h
        · rw [if_neg h2] at h
          by_cases h3 : fbSkipLine (pyStrip raw)
          · rw [if_pos h3] at h; exact ih w b d h
          · rw [if_neg h3] at h
            by_cases h4 : wordTruthy w fun wl => wordEqB wl (pyStrip raw)
            · rw [if_pos h4] at h; exact ih w b d h
            · rw [if_neg h4] at h
              by_cases h5 : 5 < (pyStrip raw).length && (pyStrip raw).length < 300
              · rw [if_pos h5] at h
                injection h with h1
                rw [← h1]
                apply take300_ne_nil
                intro hnil
                rw [hnil] at h5
                simp at h5
              · rw [if_neg h5] at h; exact ih w b d h

theorem splitNl_no_nl : ∀ a : List Char, (∀ c ∈ a, c ≠ '\n') → splitNl a = [a] := by
  intro a
  induction a with
  | nil => intro _; rfl
  | cons c r ih =>
    intro hc
    rw [splitNl]
    rw [if_neg (by exact hc c (by simp) )]
    rw [ih (fun x hx => hc x (by simp [hx]))]

theorem splitNl_append : ∀ a b : List Char, (∀ c ∈ a, c ≠ '\n') →
    splitNl (a ++ '\n' :: b) = a :: splitNl b := by
  intro a
  induction a with
  | nil => intro b _; simp [splitNl]
  | cons c r ih =>
    intro b hc
    rw [List.cons_append, splitNl]
    rw [if_neg (by exact hc c (by simp))]
    rw [ih b (fun x hx => hc x (by simp [hx]))]

theorem wordEq_self (c : Char) (t : List Char) :
    wordTruthy (some (c :: t)) (fun wl => wordEqB wl (c :: t)) = true := by
  show wordEqB (c :: t) (c :: t) = true
  unfold wordEqB
  exact beq_self_eq_true _

theorem firstTrue_none : ∀ l, firstTrue l = none → ∀ p ∈ l, p.1 = false := by
  intro l
  induction l with
  | nil => intro _ p hp; simp at hp
  | cons q rest ih =>
    intro h p hp
    rw [firstTrue] at h
    cases hq : q.1 with
    | true => rw [hq] at h; simp at h
    | false =>
      rw [hq] at h
      simp at h
      rcases List.mem_cons.mp hp with rfl | hp2
      · exact hq
      · exact ih h p hp2

theorem stateCheck_self (b : Bool) (c : Char) (t : List Char) :
    stateCheck (some (c :: t)) b (c :: t) ≠ none := by
  intro h
  have hall := firstTrue_none _ h
  have hmem : ((wordTruthy (some (c :: t)) fun wl => wordEqB wl (c :: t)), true) ∈
      checkList (some (c :: t)) b (c :: t) := by
    unfold checkList
    simp
  have := hall _ hmem
  rw [wordEq_self c t] at this
  exact Bool.noConfusion this

theorem stateCheck_false_ne_none (w : Option (List Char)) (line : List Char) :
    stateCheck w false line ≠ none := by
  intro h
  have hall := firstTrue_none _ h
  have hmem : ((!false : Bool), false) ∈ checkList w false line := by
    unfold checkList
    simp
  have := hall _ hmem
  simp at this

theorem parseLines_word_alone (b : Bool) (c : Char) (t : List Char)
    (hst : pyStrip (c :: t) = c :: t) :
    parseLines (some (c :: t)) b [c :: t] = none := by
  rw [parseLines, hst]
  rw [if_neg (by simp)]
  unfold lineStep
  cases hsc : stateCheck (some (c :: t)) b (c :: t) with
  | none => exact absurd hsc (stateCheck_self b c t)
  | some b2 => rfl

theorem parseLines_first (w : Option (List Char)) (hl : List Char)
    (rest : List (List Char)) :
    ∃ b2, parseLines w false (hl :: rest) = parseLines w b2 rest := by
  rw [parseLines]
  by_cases he : (pyStrip hl).isEmpty
  · rw [if_pos he]; exact ⟨false, rfl⟩
  · rw [if_neg he]
    unfold lineStep
    cases hsc : stateCheck w false (pyStrip hl) with
    | none => exact absurd hsc (stateCheck_false_ne_none w _)
    | some b2 => exact ⟨b2, rfl⟩

theorem fallbackLines_word_alone (st : Bool) (c : Char) (t : List Char)
    (hst : pyStrip (c :: t) = c :: t) :
    fallbackLines (some (c :: t)) st [c :: t] = none := by
  rw [fallbackLines, hst]
  rw [if_neg (by simp)]
  by_cases h1 : fbHeaderMatch (c :: t)
  · rw [if_pos h1]; rfl
  · rw [if_neg h1]
    by_cases h2 : (!st : Bool) = true
    · rw [if_pos h2]; rfl
    · rw [if_neg h2]
      by_cases h3 : fbSkipLine (c :: t)
      · rw [if_pos h3]; rfl
      · rw [if_neg h3]
        rw [if_pos (wordEq_self c t)]
        rfl

theorem fallbackLines_first (w : Option (List Char)) (hl : List Char)
    (rest : List (List Char)) :
    ∃ st, fallbackLines w false (hl :: rest) = fallbackLines w st rest := by
  rw [fallbackLines]
  by_cases he : (pyStrip hl).isEmpty
  · rw [if_pos he]; exact ⟨false, rfl⟩
  · rw [if_neg he]
    by_cases h1 : fbHeaderMatch (pyStrip hl)
    · rw [if_pos h1]; exact ⟨_, rfl⟩
    · rw [if_neg h1]
      rw [if_pos (by simp : (!false : Bool) = true)]
      exact ⟨false, rfl⟩

theorem parsePasses_ne (lines : List (List Char)) (w : Option (List Char))
    (d : List Char) (h : parsePasses lines w = some d) : d ≠ [] := by
  unfold parsePasses at h
  cases hp : parseLines w false lines with
  | some d2 =>
    rw [hp] at h
    injection h with h1
    rw [← h1]
    exact parseLines_ne lines w false d2 hp
  | none =>
    rw [hp] at h
    exact fallbackLines_ne lines w false d h

theorem parsePasses_word_alone (hl : List Char) (c : Char) (t : List Char)
    (hst : pyStrip (c :: t) = c :: t) :
    parsePasses [hl, c :: t] (some (c :: t)) = none := by
  unfold parsePasses
  obtain ⟨b2, hb2⟩ := parseLines_first (some (c :: t)) hl [c :: t]
  rw [hb2, parseLines_word_alone b2 c t hst]
  obtain ⟨st, hs2⟩ := fallbackLines_first (some (c :: t)) hl [c :: t]
  rw [hs2, fallbackLines_word_alone st c t hst]

theorem parse_never_empty (extract : String) (w : Option String) (d : String)
    (h : parse_wikt_definition extract w = some d) : d ≠ "" := by
  unfold parse_wikt_definition parseWiktCore at h
  rw [Option.map_eq_some'] at h
  obtain ⟨d2, hd2, rfl⟩ := h
  have hne := parsePasses_ne _ _ _ hd2
  intro heq
  exact hne (congrArg String.data heq)

theorem parse_headword_alone (h w : String)
    (hh : ∀ ch ∈ h.data, ch ≠ '\n') (hw : ∀ ch ∈ w.data, ch ≠ '\n')
    (hne : w.data ≠ []) (hst : pyStrip w.data = w.data) :
    parse_wikt_definition (h ++ "\n" ++ w) (some w) = none := by
  unfold parse_wikt_definition
  have hdata : (h ++ "\n" ++ w).data = h.data ++ '\n' :: w.data := by
    simp [String.data_append]
  rw [Option.map_eq_none']
  rw [show parseWiktCore (h ++ "\n" ++ w).data ((some w).map String.data) =
        parsePasses (splitNl (h ++ "\n" ++ w).data) (some w.data) from rfl]
  rw [hdata, splitNl_append h.data w.data hh, splitNl_no_nl w.data hw]
  cases hcs : w.data with
  | nil => exact absurd hcs hne
  | cons c t =>
    rw [hcs] at hst
    exact parsePasses_word_alone h.data c t hst

theorem cacheWrite_erase (cache : Cache) (lang key : String) (e : CacheEntry) :
    cacheWrite (fun l2 w2 => if l2 = lang ∧ w2 = key then none else cache l2 w2) lang key e =
    cacheWrite cache lang key e := by
  funext l2 w2
  unfold cacheWrite
  by_cases hk : l2 = lang ∧ w2 = key
  · rw [if_pos hk, if_pos hk]
  · rw [if_neg hk, if_neg hk]
    exact if_neg hk

theorem resolveAndWrite_congr (env : Env) (c1 c2 : Cache) (word lang : String)
    (hkey : ∀ e, cacheWrite c1 lang (pyLowerS word) e = cacheWrite c2 lang (pyLowerS word) e) :
    resolveAndWrite env c1 word lang = resolveAndWrite env c2 word lang := by
  unfold resolveAndWrite
  cases resolveCore env word lang with
  | none => rfl
  | some p => simp only [Option.map_some']; rw [hkey]

theorem fetch_neg_fresh (env : Env) (cache : Cache) (word lang : String) (ts : Nat)
    (hc : cache lang (pyLowerS word) = some (CacheEntry.neg ts))
    (htl : env.now - ts < NEGATIVE_CACHE_TTL) :
    fetch_definition_cached env cache word lang true = some (none, cache, 0) := by
  have hstep : fetch_definition_cached env cache word lang true =
      if env.now - ts < NEGATIVE_CACHE_TTL then some (none, cache, 0)
      else resolveAndWrite env cache word lang := by
    unfold fetch_definition_cached
    rw [if_pos rfl, hc]
  rw [hstep, if_pos htl]

theorem fetch_neg_expired (env : Env) (cache : Cache) (word lang : String) (ts : Nat)
    (hc : cache lang (pyLowerS word) = some (CacheEntry.neg ts))
    (htl : ¬(env.now - ts < NEGATIVE_CACHE_TTL)) :
    fetch_definition_cached env cache word lang true =
      fetch_definition_cached env
        (fun l2 w2 => if l2 = lang ∧ w2 = pyLowerS word then none else cache l2 w2)
        word lang true := by
  have hstep : fetch_definition_cached env cache word lang true =
      if env.now - ts < NEGATIVE_CACHE_TTL then some (none, cache, 0)
      else resolveAndWrite env cache word lang := by
    unfold fetch_definition_cached
    rw [if_pos rfl, hc]
  have hkey : (fun l2 w2 => if l2 = lang ∧ w2 = pyLowerS word then none else cache l2 w2)
      lang (pyLowerS word) = none := by simp
  have hstep2 : fetch_definition_cached env
      (fun l2 w2 => if l2 = lang ∧ w2 = pyLowerS word then none else cache l2 w2)
      word lang true =
      resolveAndWrite env
        (fun l2 w2 => if l2 = lang ∧ w2 = pyLowerS word then none else cache l2 w2)
        word lang := by
    unfold fetch_definition_cached
    rw [if_pos rfl, hkey]
  rw [hstep, if_neg htl, hstep2]
  exact resolveAndWrite_congr env cache _ word lang
    (fun e => (cacheWrite_erase cache lang (pyLowerS word) e).symm)

theorem resolveAndWrite_pos (env : Env) (cache : Cache) (word lang : String)
    (r : DefResult) (c : Cache) (n : Nat)
    (h : resolveAndWrite env cache word lang = some (some r, c, n)) :
    c lang (pyLowerS word) = some (CacheEntry.pos r) := by
  unfold resolveAndWrite at h
  rw [Option.map_eq_some'] at h
  obtain ⟨p, hp, heq⟩ := h
  injection heq with h1 h23
  injection h23 with h2 h3
  rw [← h2]
  unfold cacheWrite
  rw [if_pos ⟨rfl, rfl⟩, h1]

theorem fetch_pos_cache (env : Env) (cache : Cache) (word lang : String)
    (r : DefResult) (c : Cache) (n : Nat)
    (h : fetch_definition_cached env cache word lang true = some (some r, c, n)) :
    c lang (pyLowerS word) = some (CacheEntry.pos r) := by
  unfold fetch_definition_cached at h
  rw [if_pos rfl] at h
  cases hc : cache lang (pyLowerS word) with
  | none =>
    rw [hc] at h
    exact resolveAndWrite_pos env cache word lang r c n h
  | some entry =>
    rw [hc] at h
    cases entry with
    | pos r0 =>
      injection h with h1
      injection h1 with hr hcn
      injection hcn with hcc hnn
      injection hr with hrr
      rw [← hcc, hc, hrr]
    | neg ts =>
      have h2 : (if env.now - ts < NEGATIVE_CACHE_TTL
          then some ((none : Option DefResult), cache, 0)
          else resolveAndWrite env cache word lang) = some (some r, c, n) := h
      by_cases htl : env.now - ts < NEGATIVE_CACHE_TTL
      · rw [if_pos htl] at h2
        injection h2 with h1
        injection h1 with hr
        exact Option.noConfusion hr
      · rw [if_neg htl] at h2
        exact resolveAndWrite_pos env cache word lang r c n h2

theorem fetch_idempotent (env env2 : Env) (cache : Cache) (word lang : String)
    (r : DefResult) (c : Cache) (n : Nat)
    (h : fetch_definition_cached env cache word lang true = some (some r, c, n)) :
    fetch_definition_cached env2 c word lang true = some (some r, c, 0) := by
  have hpos := fetch_pos_cache env cache word lang r c n h
  unfold fetch_definition_cached
  rw [if_pos rfl, hpos]

theorem fetch_english_le_200 (env : Env) (word lang : String) (d : String) (n : Nat)
    (h : fetch_english_definition env word lang = (some d, n)) : d.length ≤ 200 := by
  unfold fetch_english_definition at h
  cases ha : env.enApi (pyLowerS word) with
  | none =>
    rw [ha] at h
    injection h with h1 h2
    exact Option.noConfusion h1
  | some data =>
    rw [ha] at h
    have h2 : (match firstCleanEntries (enLookup data lang) <|>
        firstCleanEntries (enLookup data "en") with
      | some c => (some (String.mk (c.take 200)), 1)
      | none => ((none : Option String), 1)) = (some d, n) := h
    cases hp : firstCleanEntries (enLookup data lang) <|>
        firstCleanEntries (enLookup data "en") with
    | none =>
      rw [hp] at h2
      injection h2 with h1 _
      exact Option.noConfusion h1
    | some cdef =>
      rw [hp] at h2
      injection h2 with h1 _
      injection h1 with h3
      rw [← h3]
      have : (String.mk (cdef.take 200)).length = (cdef.take 200).length := rfl
      rw [this, List.length_take]
      omega

theorem follow_form_of_le_200 (env : Env) (defn lang : String) (d : String) (n : Nat)
    (h : follow_form_of env defn lang = (some d, n)) : d.length ≤ 200 := by
  unfold follow_form_of at h
  cases hb : formOfBase defn.data with
  | none =>
    rw [hb] at h
    injection h with h1 h2
    exact Option.noConfusion h1
  | some base =>
    rw [hb] at h
    exact fetch_english_le_200 env (String.mk base) lang d n h

theorem llm_no_key (env : Env) (word lang : String) (h : env.apiKey = none) :
    fetch_llm_definition env word lang = (none, 0) := by
  unfold fetch_llm_definition
  rw [h]

theorem llm_unknown_lang (env : Env) (word lang : String)
    (h : LLM_LANG_NAMES.lookup lang = none) :
    fetch_llm_definition env word lang = (none, 0) := by
  unfold fetch_llm_definition
  cases hk : env.apiKey with
  | none => rfl
  | some k => rw [h]

theorem llm_bad_response (env : Env) (word lang nm k raw : String)
    (hk : env.apiKey = some k) (hn : LLM_LANG_NAMES.lookup lang = some nm)
    (hr : env.llmResp (llmPrompt nm word) = some raw)
    (hbad : containsSub ("UNKNOWN").data (upperL (pyStrip raw.data)) = true ∨
      (pyStrip raw.data).length < 3) :
    fetch_llm_definition env word lang = (none, 1) := by
  unfold fetch_llm_definition
  rw [hk, hn]
  show llmPostProcess (env.llmResp (llmPrompt nm word)) = (none, 1)
  rw [hr]
  have hcond : (containsSub ("UNKNOWN").data (upperL (pyStrip raw.data)) ||
      decide ((pyStrip raw.data).length < 3)) = true := by
    rcases hbad with hb | hb
    · simp [hb]
    · simp [hb]
  show (if containsSub ("UNKNOWN").data (upperL (pyStrip raw.data)) ||
      (pyStrip raw.data).length < 3 then ((none : Option DefResult), 1)
    else (some { definition := String.mk (take300 (pyStrip raw.data)),
                 part_of_speech := none, source := "ai", url := none }, 1)) = (none, 1)
  rw [if_pos hcond]

theorem follow_form_of_found (env : Env) (lang defn : String) (base : List Char)
    (d : String) (n : Nat) (hm : formOfBase defn.data = some base)
    (hf : fetch_english_definition env (String.mk base) lang = (some d, n)) :
    follow_form_of env defn lang = (some d, n) := by
  unfold follow_form_of
  rw [hm]
  show fetch_english_definition env (String.mk base) lang = (some d, n)
  exact hf

theorem follow_form_of_missing (env : Env) (lang defn : String) (base : List Char)
    (n : Nat) (hm : formOfBase defn.data = some base)
    (hf : fetch_english_definition env (String.mk base) lang = (none, n)) :
    follow_form_of env defn lang = (none, n) := by
  unfold follow_form_of
  rw [hm]
  show fetch_english_definition env (String.mk base) lang = (none, n)
  exact hf

/-! ### The claims -/

/-- C1 counterexample: three concrete extracts violate the claimed invariant.
Under a recognized header, the line "[1] casita" is unwrapped to "casita",
which equals the queried word; the extract whose only content after the
header is the queried word followed by a parenthetical annotation yields
that line through the lax fallback instead of nothing; and "[1] Synonym
einer Sache" is unwrapped to a line the skip classifier matches. -/
theorem claim1_counterexample :
    parse_wikt_definition "== Noun ==\n[1] casita" (some "casita") = some "casita"
  ∧ parse_wikt_definition "== Noun ==\nkoira (10)" (some "koira") = some "koira (10)"
  ∧ parse_wikt_definition "== Noun ==\n[1] Synonym einer Sache" (some "w") =
      some "Synonym einer Sache"
  ∧ skipLineMatch ("Synonym einer Sache").data = true :=
  ⟨rfl, rfl, rfl, rfl⟩

/-- C1 (amended): a definition returned by the parser is never empty; and
for any extract consisting of one newline-free line followed by exactly the
literal queried word (no annotation), the parser, its lax fallback included,
returns nothing. The returned definition may, however, equal the queried
word or be a skip-classified line when unwrapped from a numeric sense
marker, and a headword with a parenthetical annotation can be returned by
the lax fallback. -/
theorem claim1_amended :
    (∀ (extract : String) (w : Option String) (d : String),
        parse_wikt_definition extract w = some d → d ≠ "")
  ∧ (∀ (h w : String), (∀ ch ∈ h.data, ch ≠ '\n') → (∀ ch ∈ w.data, ch ≠ '\n') →
        w.data ≠ [] → pyStrip w.data = w.data →
        parse_wikt_definition (h ++ "\n" ++ w) (some w) = none) :=
  ⟨parse_never_empty, parse_headword_alone⟩

/-- C1 witness: the amended theorem applied at the Finnish fixture and at
the bare-headword extract. -/
theorem claim1_amended_witness :
    ("nelijalkainen kotieläin, joka haukkuu" : String) ≠ ""
  ∧ parse_wikt_definition "== Noun ==\nkoira" (some "koira") = none :=
  ⟨claim1_amended.1
      "== koira ==\n=== Substantiivi ===\nkoira  (10)\nnelijalkainen kotieläin, joka haukkuu\n"
      (some "koira") "nelijalkainen kotieläin, joka haukkuu" rfl,
   claim1_amended.2 "== Noun ==" "koira" (by decide) (by decide) (by decide)
      (by decide)⟩

/-- C2: the parser returns exactly the stated definition string on the three
concrete extracts of the spec (Finnish with the word supplied, German and
Polish with the word inferred from the first header). -/
theorem claim2_parser_concrete :
    parse_wikt_definition
      "== koira ==\n=== Substantiivi ===\nkoira  (10)\nnelijalkainen kotieläin, joka haukkuu\n"
      (some "koira") = some "nelijalkainen kotieläin, joka haukkuu"
  ∧ parse_wikt_definition
      "== Haus (Deutsch) ==\n=== Substantiv, n ===\nHaus, Plural: Häuser\n[1] Gebäude, das zum Wohnen dient\n"
      none = some "Gebäude, das zum Wohnen dient"
  ∧ parse_wikt_definition
      "== dom ==\nznaczenia:\n(1.1) budynek mieszkalny\n"
      none = some "budynek mieszkalny" :=
  ⟨rfl, rfl, rfl⟩

theorem r18_ne_bracket (c : Char) (r : List Char) (hc : c ≠ '[') :
    r18extract (c :: r) = none := by
  show (if c = '[' then r18inner r else none) = none
  rw [if_neg hc]

theorem r19_head (l g : List Char) (h : r19extract l = some g) :
    ∃ r, l = '(' :: r := by
  unfold r19extract at h
  split at h
  next c r =>
    split at h
    next hc => exact ⟨r, by rw [hc]⟩
    next => exact Option.noConfusion h
  next => exact Option.noConfusion h

theorem r20_head (l g : List Char) (h : r20extract l = some g) :
    ∃ d r, l = d :: r ∧ d.isDigit = true := by
  unfold r20extract at h
  split at h
  next d r =>
    split at h
    next hd => exact ⟨d, r, rfl, hd⟩
    next => exact Option.noConfusion h
  next => exact Option.noConfusion h

/-- C5 (amended): among surviving in-section lines, the three numbering
conventions are unwrapped before length-checking, but the thresholds differ:
a bracketed marker accepts content longer than 5 characters, a parenthetical
dotted marker accepts stripped content longer than 5 characters and skips
cross-reference glosses (zdrobn/zgrub/forma), while a leading bare integer
marker accepts content longer than 3 characters (not 5, as claimed). -/
theorem claim5_marker_thresholds (l : List Char) :
    (∀ g, r18extract l = some g → 5 < g.length →
        senseStep l = StepRes.out (take300 (pyStrip g)))
  ∧ (∀ g, r19extract l = some g →
        ((zdrobnMatch (pyStrip g) = true → senseStep l = StepRes.toState true)
       ∧ (zdrobnMatch (pyStrip g) = false → 5 < (pyStrip g).length →
            senseStep l = StepRes.out (take300 (pyStrip g)))
       ∧ (zdrobnMatch (pyStrip g) = false → (pyStrip g).length ≤ 5 →
            senseStep l = StepRes.toState true)))
  ∧ (∀ g, r19extract l = none → r20extract l = some g → 3 < g.length →
        senseStep l = StepRes.out (take300 (pyStrip g))) := by
  refine ⟨?_, ?_, ?_⟩
  · intro g hg hlen
    unfold senseStep
    rw [hg]
    show (if 5 < g.length then StepRes.out (take300 (pyStrip g)) else senseRest l) =
      StepRes.out (take300 (pyStrip g))
    rw [if_pos hlen]
  · intro g hg
    obtain ⟨r, rfl⟩ := r19_head l g hg
    have h18 : r18extract ('(' :: r) = none := r18_ne_bracket _ _ (by decide)
    have hsr : senseStep ('(' :: r) = senseRest ('(' :: r) := by
      unfold senseStep
      rw [h18]
    have hstep : senseRest ('(' :: r) =
        (if zdrobnMatch (pyStrip g) then StepRes.toState true
         else if 5 < (pyStrip g).length then StepRes.out (take300 (pyStrip g))
         else StepRes.toState true) := by
      unfold senseRest
      rw [hg]
    refine ⟨?_, ?_, ?_⟩
    · intro hz
      rw [hsr, hstep, if_pos hz]
    · intro hz hlen
      rw [hsr, hstep, if_neg (by simp [hz]), if_pos hlen]
    · intro hz hlen
      rw [hsr, hstep, if_neg (by simp [hz]), if_neg (by omega)]
  · intro g h19 h20 hlen
    obtain ⟨d, r, rfl, hd⟩ := r20_head l g h20
    have hne : d ≠ '[' := by
      intro hdd
      rw [hdd] at hd
      simp at hd
    have h18 : r18extract (d :: r) = none := r18_ne_bracket _ _ hne
    have hsr : senseStep (d :: r) = senseRest (d :: r) := by
      unfold senseStep
      rw [h18]
    have hstep : senseRest (d :: r) =
        (if 3 < g.length then StepRes.out (take300 (pyStrip g)) else senseTail (d :: r)) := by
      unfold senseRest
      rw [h19, h20]
    rw [hsr, hstep, if_pos hlen]

/-- C5 counterexample: a bare-integer sense line whose unwrapped content has
only 4 characters is accepted by the parser, contradicting the claimed
uniform threshold of more than 5 characters. -/
theorem claim5_counterexample :
    parse_wikt_definition "== Noun ==\n1 casa" none = some "casa"
  ∧ ("casa" : String).length = 4 :=
  ⟨rfl, rfl⟩

/-- C5 witness: the amended theorem applied at one line of each numbering
convention. -/
theorem claim5_witness :
    senseStep ("[1] abcdef").data = StepRes.out (take300 (pyStrip ("abcdef").data))
  ∧ senseStep ("(1.1) zdrobn. od domu").data = StepRes.toState true
  ∧ senseStep ("3 abcd").data = StepRes.out (take300 (pyStrip ("abcd").data)) :=
  ⟨(claim5_marker_thresholds ("[1] abcdef").data).1 ("abcdef").data rfl (by decide),
   ((claim5_marker_thresholds ("(1.1) zdrobn. od domu").data).2.1
      ("zdrobn. od domu").data rfl).1 (by decide),
   (claim5_marker_thresholds ("3 abcd").data).2.2 ("abcd").data rfl rfl (by decide)⟩

theorem foldl_extend_head (step : List String → String × String → List String)
    (hstep : ∀ acc r, step acc r = acc ∨ ∃ x, step acc r = acc ++ [x]) :
    ∀ (rules : List (String × String)) (acc : List String), acc ≠ [] →
      rules.foldl step acc ≠ [] ∧ (rules.foldl step acc).head? = acc.head? := by
  intro rules
  induction rules with
  | nil => intro acc h; exact ⟨h, rfl⟩
  | cons rule rest ih =>
    intro acc h
    rw [List.foldl_cons]
    rcases hstep acc rule with he | ⟨x, he⟩
    · rw [he]; exact ih acc h
    · rw [he]
      have hne : acc ++ [x] ≠ [] := by simp
      obtain ⟨h1, h2⟩ := ih (acc ++ [x]) hne
      refine ⟨h1, ?_⟩
      rw [h2]
      cases acc with
      | nil => exact absurd rfl h
      | cons a t => rfl

/-- C6 (amended): for every non-empty word and every language code, the
candidate generator returns a non-empty ordered list whose first element is
the input word itself; on the empty word it raises instead (modelled as
`none`). -/
theorem claim6_candidates (word lang : String) (h : word ≠ "") :
    ∃ cs, build_candidates word lang = some cs ∧ cs ≠ [] ∧ cs.head? = some word := by
  have hd : word.data ≠ [] := by
    intro hh
    apply h
    cases word with
    | mk data =>
      simp at hh
      rw [hh]
  cases hd2 : word.data with
  | nil => exact absurd hd2 hd
  | cons c rest =>
    unfold build_candidates
    rw [hd2]
    refine ⟨_, rfl, ?_⟩
    have hprop : ∀ (acc : List String) (rule : String × String),
        (fun acc rule =>
          if rule.1.data.isSuffixOf (lowerL (c :: rest)) && rule.1.length < word.length then
            if 2 ≤ (String.mk ((c :: rest).take (word.length - rule.1.length) ++ rule.2.data)).length &&
                !(acc.contains (String.mk ((c :: rest).take (word.length - rule.1.length) ++ rule.2.data))) then
              acc ++ [String.mk ((c :: rest).take (word.length - rule.1.length) ++ rule.2.data)]
            else acc
          else acc) acc rule = acc ∨
        ∃ x, (fun acc rule =>
          if rule.1.data.isSuffixOf (lowerL (c :: rest)) && rule.1.length < word.length then
            if 2 ≤ (String.mk ((c :: rest).take (word.length - rule.1.length) ++ rule.2.data)).length &&
                !(acc.contains (String.mk ((c :: rest).take (word.length - rule.1.length) ++ rule.2.data))) then
              acc ++ [String.mk ((c :: rest).take (word.length - rule.1.length) ++ rule.2.data)]
            else acc
          else acc) acc rule = acc ++ [x] := by
      intro acc rule
      dsimp only
      split
      · split
        · right; exact ⟨_, rfl⟩
        · left; rfl
      · left; rfl
    have hacc : ((if pyIsLower c then [word, String.mk (pyUpper c :: rest)] else [word]) ++
        (((LEMMA_SUFFIXES.lookup lang).getD []).map fun suf => word ++ suf)) ≠ [] := by
      by_cases hl : pyIsLower c = true
      · rw [if_pos hl]; simp
      · rw [if_neg hl]; simp
    have hh := foldl_extend_head _ hprop ((LEMMA_STRIP_RULES.lookup lang).getD [])
      ((if pyIsLower c then [word, String.mk (pyUpper c :: rest)] else [word]) ++
        (((LEMMA_SUFFIXES.lookup lang).getD []).map fun suf => word ++ suf)) hacc
    refine ⟨hh.1, ?_⟩
    rw [hh.2]
    by_cases hl : pyIsLower c = true
    · rw [if_pos hl]; rfl
    · rw [if_neg hl]; rfl

/-- C6 counterexample: on the empty word the generator indexes word[0] and
raises IndexError (modelled as `none`), so no list at all is returned. -/
theorem claim6_counterexample : build_candidates "" "es" = none := rfl

/-- C6 witness: the amended theorem applied at a concrete word. -/
theorem claim6_witness :
    ∃ cs, build_candidates "koira" "fi" = some cs ∧ cs ≠ [] ∧ cs.head? = some "koira" :=
  claim6_candidates "koira" "fi" (by decide)

/-- C7: the concrete candidate lists: for "casas"/es the list is
["casas", "Casas", "casa"], so "casa" appears after "casas"; for "Haus"/de it
is exactly ["Haus"], so "Haus" occurs once; for "besle"/tr both infinitive
variants are produced with the original word first. -/
theorem claim7_candidate_examples :
    build_candidates "casas" "es" = some ["casas", "Casas", "casa"]
  ∧ build_candidates "Haus" "de" = some ["Haus"]
  ∧ build_candidates "besle" "tr" = some ["besle", "Besle", "beslemek", "beslemak"] :=
  ⟨rfl, rfl, rfl⟩

/-- C3: with caching enabled, a negative cache entry younger than the 7-day
TTL makes the resolver return nothing with no source tier attempted (zero
HTTP requests, cache unchanged); once the entry is at least TTL old, the
call behaves exactly like a call with no entry at that key — all tiers are
re-attempted and the fresh outcome is written over the expired entry. -/
theorem claim3_negative_ttl :
    (∀ (env : Env) (cache : Cache) (word lang : String) (ts : Nat),
        cache lang (pyLowerS word) = some (CacheEntry.neg ts) →
        env.now - ts < NEGATIVE_CACHE_TTL →
        fetch_definition_cached env cache word lang true = some (none, cache, 0))
  ∧ (∀ (env : Env) (cache : Cache) (word lang : String) (ts : Nat),
        cache lang (pyLowerS word) = some (CacheEntry.neg ts) →
        ¬(env.now - ts < NEGATIVE_CACHE_TTL) →
        fetch_definition_cached env cache word lang true =
          fetch_definition_cached env
            (fun l2 w2 => if l2 = lang ∧ w2 = pyLowerS word then none else cache l2 w2)
            word lang true) :=
  ⟨fetch_neg_fresh, fetch_neg_expired⟩

/-- The environment with no reachable sources and no credential, used by the
cache witnesses. -/
def envNone : Env :=
  { nativeExtract := fun _ _ => none
    enApi := fun _ => none
    llmResp := fun _ => none
    apiKey := none
    now := 10 }

/-- A cache holding one negative entry with timestamp 0 for fi/koira. -/
def cacheNeg0 : Cache :=
  fun l w => if l = "fi" ∧ w = "koira" then some (CacheEntry.neg 0) else none

/-- C3 witness: both parts of the theorem applied at fi/koira — a fresh
negative entry short-circuits, and with the clock advanced past the TTL the
call equals a fresh resolution at that key. -/
theorem claim3_witness :
    fetch_definition_cached envNone cacheNeg0 "koira" "fi" true = some (none, cacheNeg0, 0)
  ∧ fetch_definition_cached { envNone with now := NEGATIVE_CACHE_TTL } cacheNeg0 "koira" "fi" true =
      fetch_definition_cached { envNone with now := NEGATIVE_CACHE_TTL }
        (fun l2 w2 => if l2 = "fi" ∧ w2 = pyLowerS "koira" then none else cacheNeg0 l2 w2)
        "koira" "fi" true :=
  ⟨claim3_negative_ttl.1 envNone cacheNeg0 "koira" "fi" 0 rfl (by decide),
   claim3_negative_ttl.2 { envNone with now := NEGATIVE_CACHE_TTL } cacheNeg0 "koira" "fi" 0
     rfl (by decide)⟩

/-- C4: resolving the same (word, language) twice with caching enabled is
idempotent: whenever a call returns a result, the next call on the resulting
cache returns the identical cached result, leaves the cache unchanged and
issues zero HTTP requests, whatever environment the second call sees. -/
theorem claim4_idempotent :
    ∀ (env env2 : Env) (cache : Cache) (word lang : String) (r : DefResult)
      (c : Cache) (n : Nat),
      fetch_definition_cached env cache word lang true = some (some r, c, n) →
      fetch_definition_cached env2 c word lang true = some (some r, c, 0) :=
  fetch_idempotent

/-- The environment whose native source knows only the page "gala". -/
def envGala : Env :=
  { nativeExtract := fun _ tw =>
      if tw = "gala" then some "== Noun ==\na festive occasion" else none
    enApi := fun _ => none
    llmResp := fun _ => none
    apiKey := none
    now := 5 }

def emptyCache : Cache := fun _ _ => none

def galaResult : DefResult :=
  { definition := "a festive occasion", part_of_speech := none, source := "native",
    url := some "https://en.wiktionary.org/wiki/gala" }

/-- C4 witness: the first call resolves gala through the native tier with
one request and writes the positive entry; the theorem then gives the
behavior of the second call. -/
theorem claim4_witness :
    fetch_definition_cached envGala
      (cacheWrite emptyCache "en" (pyLowerS "gala") (CacheEntry.pos galaResult))
      "gala" "en" true =
    some (some galaResult,
      cacheWrite emptyCache "en" (pyLowerS "gala") (CacheEntry.pos galaResult), 0) :=
  claim4_idempotent envGala envGala emptyCache "gala" "en" galaResult
    (cacheWrite emptyCache "en" (pyLowerS "gala") (CacheEntry.pos galaResult)) 1 rfl

/-- C8: when a definition matches the form-of boilerplate pattern
(_FORM_OF_RE), the resolver returns exactly what the English-source lookup
of the captured base word returns — the definition of the base word when found,
and nothing when the base lookup finds nothing — never the boilerplate text
itself; and "plural of gala" captures the base word "gala". -/
theorem claim8_form_of :
    (∀ (env : Env) (lang defn : String) (base : List Char) (d : String) (n : Nat),
        formOfBase defn.data = some base →
        fetch_english_definition env (String.mk base) lang = (some d, n) →
        follow_form_of env defn lang = (some d, n))
  ∧ (∀ (env : Env) (lang defn : String) (base : List Char) (n : Nat),
        formOfBase defn.data = some base →
        fetch_english_definition env (String.mk base) lang = (none, n) →
        follow_form_of env defn lang = (none, n))
  ∧ formOfBase ("plural of gala").data = some ("gala").data :=
  ⟨follow_form_of_found, follow_form_of_missing, rfl⟩

/-- The environment whose English REST endpoint knows only the entry
"gala", with one definition "a festive occasion". -/
def envEnGala : Env :=
  { nativeExtract := fun _ _ => none
    enApi := fun w =>
      if w = "gala" then
        some [("en", [{ partOfSpeech := some "noun", definitions := ["a festive occasion"] }])]
      else none
    llmResp := fun _ => none
    apiKey := none
    now := 0 }

/-- C8 witness: resolving the boilerplate "plural of gala" against the
mocked English source returns the definition of the base word, and a base word
the source does not know returns nothing. -/
theorem claim8_witness :
    follow_form_of envEnGala "plural of gala" "en" = (some "a festive occasion", 1)
  ∧ follow_form_of envEnGala "plural of nope" "en" = (none, 1) :=
  ⟨claim8_form_of.1 envEnGala "en" "plural of gala" ("gala").data "a festive occasion" 1
      rfl (by rfl),
   claim8_form_of.2.1 envEnGala "en" "plural of nope" ("nope").data 1 rfl (by rfl)⟩

/-- C9: the generative fallback returns nothing (with no request made) when
the credential is absent, for every word and language; it returns nothing
(with no request made) for every language code outside the allow-list even
with a credential; a response containing UNKNOWN or shorter than 3
characters after stripping is treated as no result; and "xx" is outside the
allow-list. -/
theorem claim9_llm_gate :
    (∀ (env : Env) (word lang : String), env.apiKey = none →
        fetch_llm_definition env word lang = (none, 0))
  ∧ (∀ (env : Env) (word lang : String), LLM_LANG_NAMES.lookup lang = none →
        fetch_llm_definition env word lang = (none, 0))
  ∧ (∀ (env : Env) (word lang nm k raw : String), env.apiKey = some k →
        LLM_LANG_NAMES.lookup lang = some nm →
        env.llmResp (llmPrompt nm word) = some raw →
        (containsSub ("UNKNOWN").data (upperL (pyStrip raw.data)) = true ∨
          (pyStrip raw.data).length < 3) →
        fetch_llm_definition env word lang = (none, 1))
  ∧ LLM_LANG_NAMES.lookup "xx" = none :=
  ⟨llm_no_key, llm_unknown_lang, llm_bad_response, rfl⟩

/-- The environment with a credential whose completion endpoint always
answers with UNKNOWN. -/
def envKeyed : Env :=
  { nativeExtract := fun _ _ => none
    enApi := fun _ => none
    llmResp := fun _ => some " UNKNOWN "
    apiKey := some "sk-test"
    now := 0 }

/-- C9 witness: the gate theorem applied with the credential removed, with
the unrecognized language "xx", and with an UNKNOWN response. -/
theorem claim9_witness :
    fetch_llm_definition { envKeyed with apiKey := none } "haus" "de" = (none, 0)
  ∧ fetch_llm_definition envKeyed "haus" "xx" = (none, 0)
  ∧ fetch_llm_definition envKeyed "haus" "de" = (none, 1) :=
  ⟨claim9_llm_gate.1 { envKeyed with apiKey := none } "haus" "de" rfl,
   claim9_llm_gate.2.1 envKeyed "haus" "xx" rfl,
   claim9_llm_gate.2.2.1 envKeyed "haus" "de" "German" "sk-test" " UNKNOWN " rfl rfl rfl
     (Or.inl (by decide))⟩

/-- C10: the English-source single-word lookup (the one the form-of resolver
uses) returns either nothing or a definition of at most 200 characters, and
so does the form-of resolver itself — a stricter bound than the 300
characters applied by the other tiers. -/
theorem claim10_english_bound :
    (∀ (env : Env) (word lang : String) (d : String) (n : Nat),
        fetch_english_definition env word lang = (some d, n) → d.length ≤ 200)
  ∧ (∀ (env : Env) (defn lang : String) (d : String) (n : Nat),
        follow_form_of env defn lang = (some d, n) → d.length ≤ 200) :=
  ⟨fetch_english_le_200, follow_form_of_le_200⟩

/-- C10 witness: the bound applied to the concrete lookup of "gala" and to
the concrete form-of resolution of "plural of gala". -/
theorem claim10_witness :
    ("a festive occasion" : String).length ≤ 200
  ∧ ("a festive occasion" : String).length ≤ 200 :=
  ⟨claim10_english_bound.1 envEnGala "gala" "en" "a festive occasion" 1 (by rfl),
   claim10_english_bound.2 envEnGala "plural of gala" "en" "a festive occasion" 1 (by rfl)⟩
